import Mathlib

/-!
# Verification of the AppleUSBUHCI controller core (shallow embedding)

This file embeds the core algorithms of `AppleUSBUHCI.cpp` (UHCI USB host
controller driver) as executable Lean definitions and proves properties of
them: the hardware-schedule construction (`HardwareInit`), the completed
transaction scavenger (`scavengeQueueHeads`, `scavengeIsochTransactions`),
the completion dispatcher (`UHCIUIMDoDoneQueueProcessing`), the descriptor
pool allocator (`AllocateTD`) and the frame-number query (`GetFrameNumber`).

Machine integers are modelled as `Nat` with explicit masking where overflow
matters.  Hardware register reads are passed in as explicit arguments;
register writes and other externally visible effects become fields of the
returned state or events in a returned trace.
-/

namespace UHCI

/-! ## Hardware constants

The controller header (`AppleUSBUHCI.h` / `UHCIUIMDefines.h`) is not part of
the visible source; the bit positions below follow the hardware-mandated
UHCI register/descriptor layout that the specification requires bit-for-bit
(status word bits: active 23, stalled 22, babble 20; token: data-toggle
bit 19, max-length field in bits 21..31 encoded n-1; link words: bit 0
terminate, bit 1 queue-head type; FRNUM is an 11-bit counter). -/

/-- Terminate bit of a UHCI link pointer (`kUHCI_QH_T`). -/
def kUHCI_QH_T : Nat := 1

/-- Queue-head-type bit of a UHCI link pointer (`kUHCI_QH_Q`). -/
def kUHCI_QH_Q : Nat := 2

/-- Active bit of the TD control/status word (`kUHCI_TD_ACTIVE`). -/
def kUHCI_TD_ACTIVE : Nat := 1 <<< 23

/-- Stalled bit of the TD control/status word (`kUHCI_TD_STALLED`). -/
def kUHCI_TD_STALLED : Nat := 1 <<< 22

/-- Babble bit of the TD control/status word (`kUHCI_TD_BABBLE`). -/
def kUHCI_TD_BABBLE : Nat := 1 <<< 20

/-- Short-packet-detect bit of the TD control/status word (`kUHCI_TD_SPD`). -/
def kUHCI_TD_SPD : Nat := 1 <<< 29

/-- Data-toggle bit of the TD token word (`kUHCI_TD_D`). -/
def kUHCI_TD_D : Nat := 1 <<< 19

/-- 11-bit frame number mask (`kUHCI_FRNUM_MASK`). -/
def kUHCI_FRNUM_MASK : Nat := 0x7FF

/-- Frame number counter period (`kUHCI_FRNUM_COUNT = kUHCI_FRNUM_MASK + 1`). -/
def kUHCI_FRNUM_COUNT : Nat := 0x800

/-- Host-controller-halted bit of the status register (`kUHCI_STS_HCH`). -/
def kUHCI_STS_HCH : Nat := 1 <<< 5

/-- `UHCI_TD_GET_ACTLEN`: actual length field of the control/status word
(n-1 encoded: stored value plus one, masked to 11 bits). -/
def UHCI_TD_GET_ACTLEN (ctrlStatus : Nat) : Nat :=
  (ctrlStatus + 1) &&& kUHCI_FRNUM_MASK

/-- `UHCI_TD_GET_MAXLEN`: maximum length field of the token word
(bits 21..31, n-1 encoded). -/
def UHCI_TD_GET_MAXLEN (token : Nat) : Nat :=
  ((token >>> 21) + 1) &&& kUHCI_FRNUM_MASK

/-- Endpoint transfer types (from the public USB headers). -/
def kUSBControl : Nat := 0

/-- Isochronous transfer type. -/
def kUSBIsoc : Nat := 1

/-- Bulk transfer type. -/
def kUSBBulk : Nat := 2

/-- Interrupt transfer type. -/
def kUSBInterrupt : Nat := 3

/-- Queue-head type marking a schedule anchor/dummy QH (`kQHTypeDummy`,
distinct from the four endpoint transfer types). -/
def kQHTypeDummy : Nat := 255

/-- `kIOReturnSuccess` is zero; any non-zero value is an error status. -/
def kIOReturnSuccess : Nat := 0

/-- 2^32, the wrap modulus of 32-bit machine arithmetic. -/
def mod32 : Nat := 4294967296

/-! ## GetFrameNumber (C10)

`AppleUSBUHCI::GetFrameNumber` maintains a 64-bit frame number out of the
hardware's 11-bit counter.  The two controller-state inputs it reads — the
status register and the masked frame-number register
(`ReadFrameNumberRegister`, defined outside this translation unit) — are
passed as explicit arguments `sts` and `thisFrame`. -/

/-- The software frame-counter state: `_lastFrameNumberLow` and
`_lastFrameNumberHigh`, both 32-bit. -/
structure FrameState where
  lastFrameNumberLow : Nat
  lastFrameNumberHigh : Nat
  deriving Repr, DecidableEq

/-- `AppleUSBUHCI::GetFrameNumber`.  Returns the 64-bit frame number and the
updated counter state.  The compare-and-swap loop of the unlocked path is
single-threaded here, so the swap succeeds on the first iteration. -/
def GetFrameNumber (sts thisFrame : Nat) (s : FrameState) : Nat × FrameState :=
  -- If the controller is halted, then we should just bail out
  if sts &&& kUHCI_STS_HCH ≠ 0 then
    (0, s)
  else if s.lastFrameNumberLow ≥ (mod32 - 1) ^^^ kUHCI_FRNUM_MASK then
    -- locked path: 11-bit and possibly 32-bit overflow bookkeeping
    let lastFrameNumber := s.lastFrameNumberLow
    let overflow := lastFrameNumber &&& ((mod32 - 1) ^^^ kUHCI_FRNUM_MASK)
    let lastFrame := lastFrameNumber &&& kUHCI_FRNUM_MASK
    if lastFrame ≤ thisFrame then
      let newFrame := (overflow + thisFrame) % mod32
      (newFrame ||| (s.lastFrameNumberHigh <<< 32),
       ⟨newFrame, s.lastFrameNumberHigh⟩)
    else
      let high := (s.lastFrameNumberHigh + 1) % mod32
      let newFrame := (overflow + thisFrame + kUHCI_FRNUM_COUNT) % mod32
      (newFrame ||| (high <<< 32), ⟨newFrame, high⟩)
  else
    -- lock-free path: compare-and-swap update, no 32-bit overflow possible
    let lastFrameNumber := s.lastFrameNumberLow
    let overflow := lastFrameNumber &&& ((mod32 - 1) ^^^ kUHCI_FRNUM_MASK)
    let lastFrame := lastFrameNumber &&& kUHCI_FRNUM_MASK
    if lastFrame ≤ thisFrame then
      let newFrame := (overflow + thisFrame) % mod32
      (newFrame ||| (s.lastFrameNumberHigh <<< 32),
       ⟨newFrame, s.lastFrameNumberHigh⟩)
    else
      let newFrame := (overflow + thisFrame + kUHCI_FRNUM_COUNT) % mod32
      (newFrame ||| (s.lastFrameNumberHigh <<< 32),
       ⟨newFrame, s.lastFrameNumberHigh⟩)

/-! ## Descriptor pool allocator (C8)

`AppleUSBUHCI::AllocateTD` pops a transfer descriptor off the free list
`_pFreeTD`; when the list is empty it allocates one fixed-size memory block
(`AppleUHCItdMemoryBlock::NewMemoryBlock`), slices it into descriptors via
`AppleUHCITransferDescriptor::WithSharedMemory` and threads them onto the
free list.  Block allocation and per-descriptor object creation are external
(kernel) allocations; they enter the model as the oracle arguments `blockOk`
and `mkTD`, and the block capacity `NumTDs()` as `numTDs`. -/

/-- A pool transfer descriptor with its four hardware-visible words
(control/status, link, token, buffer) and the software fields touched by
`AllocateTD`. -/
structure PoolTD where
  ctrlStatus : Nat
  link : Nat
  token : Nat
  buffer : Nat
  physAddr : Nat
  alignBuffer : Bool
  lastFrame : Nat
  lastRemaining : Nat
  command : Option Nat
  pQH : Option Nat
  deriving Repr, DecidableEq

/-- The TD free list (`_pFreeTD` is the head, `_pLastFreeTD` the last
element). -/
structure TDPool where
  freeList : List PoolTD
  deriving Repr, DecidableEq

/-- The slicing loop of `AllocateTD` (`for (i=1; i < numTDs; i++)`): pushes
each newly created descriptor onto the front of the free list; on a creation
failure it breaks with the local variable `freeTD` set to the current list
head (`freeTD = _pFreeTD`).  Returns the free list and the final value of
the local `freeTD`. -/
def sliceLoopGo (mkTD : Nat → Option PoolTD) (numTDs : Nat) :
    Nat → Nat → List PoolTD → Option PoolTD → List PoolTD × Option PoolTD
  | 0, _, front, freeVar => (front, freeVar)
  | fuel + 1, i, front, freeVar =>
    if i < numTDs then
      match mkTD i with
      | none => (front, front.head?)
      | some td => sliceLoopGo mkTD numTDs fuel (i + 1) (td :: front) (some td)
    else (front, freeVar)

/-- Entry point of the slicing loop; the fuel `numTDs - i` covers every
iteration the source loop can perform. -/
def sliceLoop (mkTD : Nat → Option PoolTD) (numTDs i : Nat)
    (front : List PoolTD) (freeVar : Option PoolTD) :
    List PoolTD × Option PoolTD :=
  sliceLoopGo mkTD numTDs (numTDs - i) i front freeVar

/-- The field assignments `AllocateTD` performs on the descriptor it hands
out: clear the software bookkeeping and zero all four hardware-visible
words. -/
def zeroOutTD (td : PoolTD) (pQH : Option Nat) : PoolTD :=
  { td with alignBuffer := false, lastFrame := 0, lastRemaining := 0,
            command := none, ctrlStatus := 0, link := 0, token := 0,
            buffer := 0, pQH := pQH }

/-- `AppleUSBUHCI::AllocateTD`.  Returns the descriptor handed out (`none`
is the explicit out-of-memory signal, a NULL return in the source) together
with the updated pool. -/
def AllocateTD (pool : TDPool) (pQH : Option Nat) (blockOk : Bool)
    (numTDs : Nat) (mkTD : Nat → Option PoolTD) : Option PoolTD × TDPool :=
  match pool.freeList with
  | freeTD :: rest => (some (zeroOutTD freeTD pQH), ⟨rest⟩)
  | [] =>
    if blockOk then
      -- first descriptor: _pLastFreeTD = WithSharedMemory(...); _pFreeTD = _pLastFreeTD
      let front0 : List PoolTD :=
        match mkTD 0 with
        | some t => [t]
        | none => []
      -- the local variable freeTD is still NULL when the loop starts
      match sliceLoop mkTD numTDs 1 front0 none with
      | (freeTD :: rest, some _) => (some (zeroOutTD freeTD pQH), ⟨rest⟩)
      | (front, _) => (none, ⟨front⟩)
    else (none, pool)

/-! ## Schedule construction: HardwareInit (C2, C6, C7)

`AppleUSBUHCI::HardwareInit` (after the reset and buffer-memory phases
succeed) writes the FRNUM and FRBASEADDR registers, allocates the dummy tail
QH, the bulk, full-speed control and low-speed control anchor QHs, then the
interrupt-QH ladder, filling the frame list, and finally loops the tail QH's
hardware link back to the full-speed control QH and starts the controller.
Allocation success of the n-th `AllocateQH` call is the oracle `allocOk n`;
the physical address handed to the n-th QH is `qhAddr n`.  Allocation order:
0 = tail dummy, 1 = bulk, 2 = full-speed control, 3 = low-speed control,
4+i = interrupt level i. -/

/-- A queue head as configured by `HardwareInit`: its physical address, the
horizontal hardware link written by `SetPhysicalLink`, the shared element
link, the software `_logicalNext` (as the allocation index of the target
QH), and its type. -/
structure QHModel where
  physAddr : Nat
  hwLink : Nat
  elink : Nat
  softNext : Option Nat
  qtype : Nat
  deriving Repr, DecidableEq

/-- `GetPhysicalAddrWithType` for a queue head: the physical address with
the queue-head-type bit set. -/
def qhAddrWithType (addr : Nat) : Nat := addr ||| kUHCI_QH_Q

/-- Result of `HardwareInit`. -/
inductive InitResult
  | success
  | noMemory
  deriving Repr, DecidableEq

/-- The externally visible state built by `HardwareInit`: the register
writes performed so far, the frame list, and the queue heads (`none` for a
QH whose allocation was never reached or failed). -/
structure HwInitState where
  result : InitResult
  frnum : Nat
  frbaseWritten : Bool
  runStarted : Bool
  frames : List Nat
  logicalFrames : List Nat
  lastQH : Option QHModel
  bulkQH : Option QHModel
  fsQH : Option QHModel
  lsQH : Option QHModel
  intrQHs : List QHModel
  deriving Repr, DecidableEq

/-- The inner frame-list loop of `HardwareInit`
(`for (j=frame_period-1; j < kUHCI_NVFRAMES; j += frame_period)`): writes
`v` into every `2^i`-th slot starting at `j`. -/
def installSlotsGo (v i nvframes : Nat) : Nat → List Nat → Nat → List Nat
  | 0, frames, _ => frames
  | fuel + 1, frames, j =>
    if j < nvframes then
      installSlotsGo v i nvframes fuel (frames.set j v) (j + 2 ^ i)
    else frames

/-- Entry point of the frame-list fill loop; the fuel `nvframes - j` covers
every iteration the source loop can perform (each iteration advances `j` by
`2^i ≥ 1`). -/
def installSlots (v i nvframes : Nat) (frames : List Nat) (j : Nat) :
    List Nat :=
  installSlotsGo v i nvframes (nvframes - j) frames j

/-- The interrupt-QH allocation loop of `HardwareInit`
(`for (i=0; i < kUHCI_NINTR_QHS; i++)`).  `lastAddrT` and `lastIdx` track
the previously created QH (`lastQH` in the source), to which each new level
links. -/
def intrLoopGo (allocOk : Nat → Bool) (qhAddr : Nat → Nat)
    (nintr nvframes : Nat) :
    Nat → Nat → Nat → Nat → HwInitState → HwInitState
  | 0, _, _, _, st => st
  | fuel + 1, i, lastAddrT, lastIdx, st =>
    if i < nintr then
      if allocOk (4 + i) then
        let addr := qhAddr (4 + i)
        let qh : QHModel := { physAddr := addr, hwLink := lastAddrT,
                              elink := kUHCI_QH_T, softNext := some lastIdx,
                              qtype := kQHTypeDummy }
        let frames2 := installSlots (qhAddrWithType addr) i nvframes
          st.frames (2 ^ i - 1)
        let logical2 := installSlots (4 + i) i nvframes st.logicalFrames
          (2 ^ i - 1)
        intrLoopGo allocOk qhAddr nintr nvframes fuel (i + 1)
          (qhAddrWithType addr) (4 + i)
          { st with frames := frames2, logicalFrames := logical2,
                    intrQHs := st.intrQHs ++ [qh] }
      else { st with result := .noMemory }
    else st

/-- Entry point of the interrupt-QH allocation loop; the fuel `nintr - i`
covers every iteration the source loop can perform. -/
def intrLoop (allocOk : Nat → Bool) (qhAddr : Nat → Nat)
    (nintr nvframes : Nat) (i : Nat) (lastAddrT lastIdx : Nat)
    (st : HwInitState) : HwInitState :=
  intrLoopGo allocOk qhAddr nintr nvframes (nintr - i) i lastAddrT lastIdx st

/-- `AppleUSBUHCI::HardwareInit`, from the point where the reset and
buffer-memory phases have succeeded (their failures return before any of
the state modelled here is touched).  `nintr` is `kUHCI_NINTR_QHS` and
`nvframes` is `kUHCI_NVFRAMES`. -/
def HardwareInit (nintr nvframes : Nat) (allocOk : Nat → Bool)
    (qhAddr : Nat → Nat) (initFrames initLogical : List Nat) : HwInitState :=
  -- ioWrite16(kUHCI_FRNUM, 0); ioWrite32(kUHCI_FRBASEADDR, _framesPaddr)
  let st0 : HwInitState := { result := .success, frnum := 0,
                             frbaseWritten := true, runStarted := false,
                             frames := initFrames,
                             logicalFrames := initLogical, lastQH := none,
                             bulkQH := none, fsQH := none, lsQH := none,
                             intrQHs := [] }
  -- Dummy QH at the end of the list
  if ¬ allocOk 0 then { st0 with result := .noMemory } else
  let lastQH : QHModel := { physAddr := qhAddr 0, hwLink := kUHCI_QH_T,
                            elink := kUHCI_QH_T, softNext := none,
                            qtype := kQHTypeDummy }
  let st1 := { st0 with lastQH := some lastQH }
  -- Bulk traffic queue
  if ¬ allocOk 1 then { st1 with result := .noMemory } else
  let bulkQH : QHModel := { physAddr := qhAddr 1,
                            hwLink := qhAddrWithType (qhAddr 0),
                            elink := kUHCI_QH_T, softNext := some 0,
                            qtype := kQHTypeDummy }
  let st2 := { st1 with bulkQH := some bulkQH }
  -- Full speed control queue
  if ¬ allocOk 2 then { st2 with result := .noMemory } else
  let fsQH : QHModel := { physAddr := qhAddr 2,
                          hwLink := qhAddrWithType (qhAddr 1),
                          elink := kUHCI_QH_T, softNext := some 1,
                          qtype := kQHTypeDummy }
  let st3 := { st2 with fsQH := some fsQH }
  -- Low speed control queue
  if ¬ allocOk 3 then { st3 with result := .noMemory } else
  let lsQH : QHModel := { physAddr := qhAddr 3,
                          hwLink := qhAddrWithType (qhAddr 2),
                          elink := kUHCI_QH_T, softNext := some 2,
                          qtype := kQHTypeDummy }
  let st4 := { st3 with lsQH := some lsQH }
  -- Interrupt QH tree, most frequent level first
  let stL := intrLoop allocOk qhAddr nintr nvframes 0
    (qhAddrWithType (qhAddr 3)) 3 st4
  if stL.result ≠ .success then stL else
  -- bandwidth reclamation: point the tail QH's hardware link back to the
  -- full speed queue head; do not link the software pointer
  let lastQH2 := { lastQH with
                   hwLink := qhAddrWithType fsQH.physAddr ||| kUHCI_QH_T }
  { stL with lastQH := some lastQH2, runStarted := true }

/-- The controller state reached by `HardwareInit` right after the four
anchor queue heads (tail dummy, bulk, full-speed control, low-speed control)
are allocated, before the interrupt ladder is built — a closed form used to
phrase the success path. -/
def anchorsState (qhAddr : Nat → Nat) (fi fl : List Nat) : HwInitState :=
  { result := .success, frnum := 0, frbaseWritten := true,
    runStarted := false, frames := fi, logicalFrames := fl,
    lastQH := some ⟨qhAddr 0, kUHCI_QH_T, kUHCI_QH_T, none, kQHTypeDummy⟩,
    bulkQH := some ⟨qhAddr 1, qhAddrWithType (qhAddr 0), kUHCI_QH_T,
      some 0, kQHTypeDummy⟩,
    fsQH := some ⟨qhAddr 2, qhAddrWithType (qhAddr 1), kUHCI_QH_T,
      some 1, kQHTypeDummy⟩,
    lsQH := some ⟨qhAddr 3, qhAddrWithType (qhAddr 2), kUHCI_QH_T,
      some 2, kQHTypeDummy⟩,
    intrQHs := [] }

/-- The largest level `i ≤ L` whose slot pattern covers frame `j`, i.e. the
largest `i ≤ L` with `(j + 1) % 2^i = 0` (level 0 always qualifies). -/
def maxLevel (j : Nat) : Nat → Nat
  | 0 => 0
  | L + 1 => if (j + 1) % 2 ^ (L + 1) = 0 then L + 1 else maxLevel j L

def maxHitFromGo (k nintr : Nat) : Nat → Nat → Option Nat
  | 0, _ => none
  | fuel + 1, i =>
    if i < nintr then
      match maxHitFromGo k nintr fuel (i + 1) with
      | some l => some l
      | none => if (k + 1) % 2 ^ i = 0 then some i else none
    else none

/-- The largest level in `[i, nintr)` whose slot pattern covers frame `k`,
if any; recursion mirrors `intrLoop` (level `i` first, later levels
overwrite). -/
def maxHitFrom (k i nintr : Nat) : Option Nat :=
  maxHitFromGo k nintr (nintr - i) i

/-! ## Isochronous done-queue scavenging (C3)

`AppleUSBUHCI::scavengeIsochTransactions` snapshots the filter-interrupt
maintained done queue (`_savedDoneQueueHead`, `_producerCount`) under the
`_wdhLock`, then outside the lock reverses the LIFO list into execution
order while moving per-endpoint bookkeeping from `onProducerQ` to
`onReversedList`, and finally walks the reversed list delivering each
descriptor to `scavengeAnIsochTD` while decrementing `onReversedList`. -/

/-- An isochronous transfer descriptor as seen by the done-queue reversal:
its identity and its owning endpoint (`_pEndpoint`; `none` models a TD whose
endpoint pointer is NULL). -/
structure ITD where
  itdid : Nat
  ep : Option Nat
  deriving Repr, DecidableEq

/-- The controller state read and written by `scavengeIsochTransactions`:
the snapshotted done queue (head first, i.e. LIFO discovery order), the
producer and consumer counts, and the per-endpoint counters. -/
structure IsochState where
  doneQueue : List ITD
  producerCount : Nat
  consumerCount : Nat
  onProducerQ : Nat → Int
  onReversedList : Nat → Int

/-- The number of descriptors in `l` owned by endpoint `e`. -/
def countEp (l : List ITD) (e : Nat) : Int :=
  ((l.filter fun d => d.ep = some e).length : Int)

/-- The reversal loop (`while (true) { ... }`): pushes each element of the
snapshotted LIFO onto the reversed list, bumps the consumer count, moves the
endpoint bookkeeping from the producer queue to the reversed list, and stops
once the consumer count reaches the snapshotted producer count.  (If the
queue were shorter than `producer - consumer` the source would dereference a
null `_doneQueueLink`; the model stops at the end of the list.) -/
def reverseLoop (cachedProducer : Nat) :
    List ITD → Nat → List ITD → (Nat → Int) → (Nat → Int) →
    List ITD × Nat × (Nat → Int) × (Nat → Int)
  | [], cons, acc, opq, orl => (acc, cons, opq, orl)
  | d :: rest, cons, acc, opq, orl =>
    let acc2 := d :: acc
    let cons2 := cons + 1
    let opq2 : Nat → Int :=
      match d.ep with
      | some e => fun x => if x = e then opq x - 1 else opq x
      | none => opq
    let orl2 : Nat → Int :=
      match d.ep with
      | some e => fun x => if x = e then orl x + 1 else orl x
      | none => orl
    if cachedProducer = cons2 then (acc2, cons2, opq2, orl2)
    else reverseLoop cachedProducer rest cons2 acc2 opq2 orl2

/-- The drain loop (`while (pDoneEl) { ... }`): walks the reversed list in
forward (chronological) order, decrements the endpoint's on-reversed-list
counter and hands each descriptor to `scavengeAnIsochTD`; the delivery
order is accumulated. -/
def drainLoop : List ITD → (Nat → Int) → List ITD → (Nat → Int) × List ITD
  | [], orl, delivered => (orl, delivered)
  | d :: rest, orl, delivered =>
    let orl2 : Nat → Int :=
      match d.ep with
      | some e => fun x => if x = e then orl x - 1 else orl x
      | none => orl
    drainLoop rest orl2 (delivered ++ [d])

/-- `AppleUSBUHCI::scavengeIsochTransactions`: returns the new state and the
descriptors delivered to `scavengeAnIsochTD`, in delivery order.  The saved
done-queue head is not cleared by the source; only the consumer count
records the progress. -/
def scavengeIsochTransactions (s : IsochState) : IsochState × List ITD :=
  let pDoneEl := s.doneQueue
  let cachedProducer := s.producerCount
  let cachedConsumer := s.consumerCount
  if pDoneEl ≠ [] ∧ cachedConsumer ≠ cachedProducer then
    let rv := reverseLoop cachedProducer pDoneEl cachedConsumer []
      s.onProducerQ s.onReversedList
    let dr := drainLoop rv.1 rv.2.2.2 []
    ({ s with consumerCount := rv.2.1, onProducerQ := rv.2.2.1,
              onReversedList := dr.1 }, dr.2)
  else (s, [])

/-! ## The control/bulk/interrupt scavenger (C1, C5, C9)

`AppleUSBUHCI::scavengeQueueHeads` walks the schedule's queue-head chain;
for each non-dummy, non-stalled QH it walks the TD chain from `firstTD`
until `lastTD`, interpreting hardware status (active / halted / short),
harvesting every completed transaction onto a done queue, repairing toggle
bits after a short packet, and adjusting the QH's hardware element link.
`USBToHostLong`/`HostToUSBLong` are identities on the little-endian targets
of this driver and are dropped.  The logical chain of a QH is modelled as
the list of TDs reachable over `_logicalNext` from `firstTD`; `lastTD` is
identified by its `tdid`. -/

/-- A transfer descriptor in a queue head's chain.  `command` models the
completion plumbing: `none` for a NULL `IOUSBCommand`, `some none` for a
command whose `GetUSLCompletion().action` is null, and `some (some cb)` for
callback handle `cb`.  `pqhType` is the owning queue head's transfer type
(`pQH->type`), used by the dispatcher; `dmaOk` is whether the command holds
a DMA command with a memory descriptor (alignment-buffer path). -/
structure TD where
  tdid : Nat
  ctrlStatus : Nat
  token : Nat
  physAddr : Nat
  lastTDofTransaction : Bool
  command : Option (Option Nat)
  pqhType : Nat
  alignBuffer : Bool
  direction : Nat
  dmaOk : Bool
  deriving Repr, DecidableEq

/-- `kUSBOut` direction value. -/
def kUSBOut : Nat := 0

/-- `kUSBIn` direction value. -/
def kUSBIn : Nat := 1

/-- The alignment-buffer handling the scavenger applies to every TD it
visits: an OUT (or zero-length) buffer is released; an IN buffer is
detached onto the DMA command when the command plumbing is present;
otherwise (a logged driver error) the buffer stays attached.  Only the
`alignBuffer` flag of the TD changes. -/
def scavAlignBuffer (t : TD) : TD :=
  if t.alignBuffer then
    if t.direction = kUSBOut ∨ UHCI_TD_GET_ACTLEN t.ctrlStatus = 0 then
      { t with alignBuffer := false }
    else if t.command ≠ none ∧ t.dmaOk then
      { t with alignBuffer := false }
    else t
  else t

/-- The toggle-rewrite loop run after a short packet ("if the toggle bits
are the same, then we need to swap them all"): alternates the toggle bit
over the remaining chain, starting with the complement of the short TD's
ending toggle.  Returns the rewritten chain and the final value of the
`lastToggle` local. -/
def flipToggles : Nat → List TD → List TD × Nat
  | lastToggle, [] => ([], lastToggle)
  | lastToggle, t :: rest =>
    let lt := if lastToggle ≠ 0 then 0 else kUHCI_TD_D
    let t2 := { t with
      token := (t.token &&& ((mod32 - 1) ^^^ kUHCI_TD_D)) ||| lt }
    let r := flipToggles lt rest
    (t2 :: r.1, r.2)

/-- Result of the TD-chain walk on one queue head: the harvested done
queue (in discovery order), the remaining chain (from the final `firstTD`),
the QH's stalled flag and its hardware element link. -/
structure WalkResult where
  done : List TD
  chain : List TD
  stalled : Bool
  elink : Nat
  deriving Repr, DecidableEq

/-- The TD-chain walk of `scavengeQueueHeads`
(`while(qTD && (qTD != qEnd) && (tdCount++ < 150000))`), one fuel unit per
iteration (the wrapper passes the chain length, which bounds the number of
iterations).  Arguments after the fuel mirror the source locals: the chain
from `qTD`, `TDisHalted`, `shortTransfer`, `lastToggle`, the TDs between
`firstTD` and `qTD` (`seg`, empty right after a harvest), the done queue,
`pQH->stalled` and `pQH`'s element link, and `tdCount`. -/
def tdWalkGo (qhType : Nat) (lastTDId : Option Nat) :
    Nat → List TD → Bool → Bool → Nat → List TD → List TD → Bool → Nat →
    Nat → WalkResult
  | 0, tds, _, _, _, seg, done, stalled, elink, _ =>
    ⟨done, seg ++ tds, stalled, elink⟩
  | fuel + 1, tds, TDisHalted, shortTransfer, lastToggle, seg, done, stalled,
      elink, tdCount =>
    match tds with
    | [] => ⟨done, seg, stalled, elink⟩
    | qTD :: rest =>
      if some qTD.tdid = lastTDId then
        ⟨done, seg ++ qTD :: rest, stalled, elink⟩
      else if ¬ tdCount < 150000 then
        ⟨done, seg ++ qTD :: rest, stalled, elink⟩
      else
        let ctrlStatus := qTD.ctrlStatus
        let actLength := UHCI_TD_GET_ACTLEN ctrlStatus
        if TDisHalted = false ∧ shortTransfer = false ∧
            ctrlStatus &&& kUHCI_TD_ACTIVE ≠ 0 then
          -- command is still alive, go to next queue
          ⟨done, seg ++ qTD :: rest, stalled, elink⟩
        else
          let TDisHalted2 :=
            if TDisHalted = false ∧ shortTransfer = false then
              decide (ctrlStatus &&& kUHCI_TD_STALLED ≠ 0)
            else TDisHalted
          let stalled2 :=
            if TDisHalted = false ∧ shortTransfer = false ∧
                ctrlStatus &&& kUHCI_TD_STALLED ≠ 0 then true else stalled
          let shortCond : Prop := TDisHalted = false ∧ shortTransfer = false ∧
            ctrlStatus &&& kUHCI_TD_STALLED = 0 ∧
            ctrlStatus &&& kUHCI_TD_SPD ≠ 0 ∧
            actLength < UHCI_TD_GET_MAXLEN qTD.token
          let shortTransfer2 :=
            if shortCond then true else shortTransfer
          let lastToggle2 :=
            if shortCond then qTD.token &&& kUHCI_TD_D else lastToggle
          let qTD2 := scavAlignBuffer qTD
          if qTD.lastTDofTransaction = true then
            let done2 := done ++ seg ++ [qTD2]
            match rest with
            | [] =>
              -- "The UHCI driver found a NULL Transfer Descriptor":
              -- break before updating firstTD or the element link
              ⟨done2, seg ++ [qTD2], stalled2, elink⟩
            | r0 :: rs =>
              if TDisHalted2 = false ∧ shortTransfer2 = true then
                let doFlip : Prop := qhType ≠ kUSBControl ∧
                  r0.token &&& kUHCI_TD_D = lastToggle2
                let rest2 := if doFlip then
                    (flipToggles lastToggle2 (r0 :: rs)).1
                  else r0 :: rs
                let lastToggle3 := if doFlip then
                    (flipToggles lastToggle2 (r0 :: rs)).2
                  else lastToggle2
                -- the element link was not advanced past the short packet
                tdWalkGo qhType lastTDId fuel rest2 false false lastToggle3
                  [] done2 stalled2 r0.physAddr (tdCount + 1)
              else if TDisHalted2 = true then
                tdWalkGo qhType lastTDId fuel (r0 :: rs) false false
                  lastToggle2 [] done2 stalled2 kUHCI_QH_T (tdCount + 1)
              else
                tdWalkGo qhType lastTDId fuel (r0 :: rs) false false
                  lastToggle2 [] done2 stalled2 elink (tdCount + 1)
          else
            match rest with
            | [] =>
              -- NULL next TD: break without harvesting
              ⟨done, seg ++ [qTD2], stalled2, elink⟩
            | r0 :: rs =>
              tdWalkGo qhType lastTDId fuel (r0 :: rs) TDisHalted2
                shortTransfer2 lastToggle2 (seg ++ [qTD2]) done stalled2
                elink (tdCount + 1)

/-- The TD-chain walk on one queue head, started from `firstTD` with clean
flags, as `scavengeQueueHeads` does. -/
def tdWalk (qhType : Nat) (lastTDId : Option Nat) (elink : Nat)
    (tds : List TD) : WalkResult :=
  tdWalkGo qhType lastTDId tds.length tds false false 0 [] [] false elink 0

/-- A queue head as seen by the scavenger: its transfer type, stalled flag,
hardware element link, logical TD chain from `firstTD`, and the identity of
`lastTD`. -/
structure ScavQH where
  qtype : Nat
  stalled : Bool
  elink : Nat
  chain : List TD
  lastTDId : Option Nat
  deriving Repr, DecidableEq

/-- One queue head's processing by `scavengeQueueHeads`: a dummy or stalled
QH is skipped without traversing its chain; otherwise the TD walk runs and
the QH's stalled flag, element link and `firstTD` chain are updated. -/
def scavengeOneQH (qh : ScavQH) : ScavQH × List TD :=
  if qh.qtype ≠ kQHTypeDummy ∧ qh.stalled = false then
    let r := tdWalk qh.qtype qh.lastTDId qh.elink qh.chain
    ({ qh with stalled := r.stalled, elink := r.elink, chain := r.chain },
      r.done)
  else (qh, [])

/-- The outer loop of `scavengeQueueHeads`
(`while( (pLE != NULL) && (leCount++ < 150000) )`): processes each queue
head of the schedule chain in order, accumulating one combined done queue
which is afterwards handed to `UHCIUIMDoDoneQueueProcessing`. -/
def scavengeQHList : List ScavQH → Nat → List ScavQH × List TD
  | [], _ => ([], [])
  | qh :: rest, leCount =>
    if leCount < 150000 then
      let r := scavengeOneQH qh
      let rr := scavengeQHList rest (leCount + 1)
      (r.1 :: rr.1, r.2 ++ rr.2)
    else (qh :: rest, [])

/-! ### Chain-shape predicates for the scavenger theorems

The walk of one queue head classifies each TD it visits while its
per-transaction flags are clean: an active TD stops the walk, a halted or
short TD dirties the flags, and any other TD is passed over unchanged.
The predicates below name these classes; they are stated over the TD's
hardware words exactly as `tdWalkGo` tests them. -/

/-- A TD the walk passes over with clean flags and no flag change: not the
`lastTD` sentinel, inactive, not halted, not short, and not flagged
last-of-transaction. -/
def PlainTD (lastTDId : Option Nat) (t : TD) : Prop :=
  some t.tdid ≠ lastTDId ∧ t.ctrlStatus &&& kUHCI_TD_ACTIVE = 0 ∧
  t.ctrlStatus &&& kUHCI_TD_STALLED = 0 ∧
  ¬ (t.ctrlStatus &&& kUHCI_TD_SPD ≠ 0 ∧
     UHCI_TD_GET_ACTLEN t.ctrlStatus < UHCI_TD_GET_MAXLEN t.token) ∧
  t.lastTDofTransaction = false

instance (l : Option Nat) (t : TD) : Decidable (PlainTD l t) := by
  unfold PlainTD; infer_instance

/-- A TD that dirties the walk's flags when met with clean flags: inactive,
not flagged last-of-transaction, and either halted or short. -/
def TriggerTD (lastTDId : Option Nat) (t : TD) : Prop :=
  some t.tdid ≠ lastTDId ∧ t.ctrlStatus &&& kUHCI_TD_ACTIVE = 0 ∧
  t.lastTDofTransaction = false ∧
  (t.ctrlStatus &&& kUHCI_TD_STALLED ≠ 0 ∨
   (t.ctrlStatus &&& kUHCI_TD_SPD ≠ 0 ∧
    UHCI_TD_GET_ACTLEN t.ctrlStatus < UHCI_TD_GET_MAXLEN t.token))

instance (l : Option Nat) (t : TD) : Decidable (TriggerTD l t) := by
  unfold TriggerTD; infer_instance

/-- A TD the walk passes over while its flags are dirty: its status words
are ignored, only the last-of-transaction flag and the `lastTD` identity
matter. -/
def BlindTD (lastTDId : Option Nat) (t : TD) : Prop :=
  some t.tdid ≠ lastTDId ∧ t.lastTDofTransaction = false

instance (l : Option Nat) (t : TD) : Decidable (BlindTD l t) := by
  unfold BlindTD; infer_instance

/-- The shape a queue head's chain has after a scavenger pass: a plain
prefix followed by nothing, by the `lastTD` sentinel, by a still-active TD,
or by an unfinished dirty transaction (a trigger TD, blind TDs, and the
sentinel).  A walk started on a chain of this shape harvests nothing. -/
def Scavenged (lastTDId : Option Nat) (tds : List TD) : Prop :=
  ∃ P Q, tds = P ++ Q ∧ (∀ t ∈ P, PlainTD lastTDId t) ∧
    (Q = [] ∨
     (∃ d Q2, Q = d :: Q2 ∧ some d.tdid = lastTDId) ∨
     (∃ a Q2, Q = a :: Q2 ∧ some a.tdid ≠ lastTDId ∧
        a.ctrlStatus &&& kUHCI_TD_ACTIVE ≠ 0) ∨
     (∃ tr B dd, Q = tr :: (B ++ [dd]) ∧ TriggerTD lastTDId tr ∧
        (∀ t ∈ B, BlindTD lastTDId t) ∧ some dd.tdid = lastTDId))

/-- A well-formed queue head: its chain ends in the TD identified by
`lastTDId` (the dummy `lastTD`), no earlier TD aliases that identity, and
the chain is shorter than the walk's defensive iteration cap. -/
def WFQH (qh : ScavQH) : Prop :=
  qh.chain.getLast?.map (fun t => some t.tdid) = some qh.lastTDId ∧
  (∀ t ∈ qh.chain.dropLast, some t.tdid ≠ qh.lastTDId) ∧
  qh.chain.length ≤ 150000

instance (qh : ScavQH) : Decidable (WFQH qh) := by
  unfold WFQH; infer_instance

/-! ## The completion dispatcher (C4)

`AppleUSBUHCI::UHCIUIMDoDoneQueueProcessing` walks the done chain once,
accumulating an error and a residual byte count per logical transaction and
firing each transaction's completion exactly once at its last TD.
`TDToUSBError` (defined in another translation unit of the driver) is the
hardware-status-to-result conversion; it enters as the parameter
`tdToUSBError`, with `kIOReturnSuccess = 0` as the success value.  The
externally visible behaviour is the event trace: completion callbacks,
returns of descriptors to the pool (`DeallocateTD`), and the logged
invariant violations for a missing command or completion action.  The
`_controlBulkTransactionsOut` counter and the tail QH link it terminates
are threaded through as state. -/

/-- Observable dispatcher events, in program order. -/
inductive DispatchEvent
  | complete (cb status remaining : Nat)
  | free (tdid : Nat)
  | missingCommandLog (tdid : Nat)
  | missingActionLog (tdid : Nat)
  deriving Repr, DecidableEq

/-- The dispatcher loop (`while (pHCDoneTD != NULL)`), structurally
recursive over the done chain.  Arguments mirror the source locals:
the chain, `forceErr`, `stopAt` (by TD identity), `bufferSizeRemaining`,
`accumErr`, then `_controlBulkTransactionsOut` and the tail QH's hardware
link word. -/
def dispatchGo (tdToUSBError : Nat → Nat) :
    List TD → Nat → Option Nat → Nat → Nat → Nat → Nat →
    List DispatchEvent × Nat × Nat
  | [], _, _, _, _, cbOut, lastQHLink => ([], cbOut, lastQHLink)
  | td :: rest, forceErr, stopAt, bufferSizeRemaining, accumErr, cbOut,
      lastQHLink =>
    if stopAt = some td.tdid then
      -- do not process this one or any further
      ([], cbOut, lastQHLink)
    else
      let ctrlStatus := td.ctrlStatus
      let token := td.token
      let errStatus :=
        if forceErr ≠ kIOReturnSuccess then forceErr
        else if accumErr ≠ kIOReturnSuccess then accumErr
        else tdToUSBError ctrlStatus
      let accumErr2 :=
        if forceErr ≠ kIOReturnSuccess then accumErr
        else if accumErr ≠ kIOReturnSuccess then accumErr
        else tdToUSBError ctrlStatus
      let rem2 := (bufferSizeRemaining +
        (UHCI_TD_GET_MAXLEN token + mod32 - UHCI_TD_GET_ACTLEN ctrlStatus)
          % mod32) % mod32
      if td.lastTDofTransaction then
        match td.command with
        | none =>
          -- "pHCDoneTD->command is NULL": logged, no completion, no reset
          let r := dispatchGo tdToUSBError rest forceErr stopAt rem2
            accumErr2 cbOut lastQHLink
          (.missingCommandLog td.tdid :: .free td.tdid :: r.1, r.2)
        | some none =>
          -- "completion.action == NULL": logged, no completion, no reset
          let r := dispatchGo tdToUSBError rest forceErr stopAt rem2
            accumErr2 cbOut lastQHLink
          (.missingActionLog td.tdid :: .free td.tdid :: r.1, r.2)
        | some (some cb) =>
          -- lastTDofTransaction is cleared, the completion fires, and for
          -- control/bulk the transactions-out bookkeeping may terminate
          -- the reclamation loop; then the error and residual reset
          let cbOut2 :=
            if td.pqhType = kUSBControl ∨ td.pqhType = kUSBBulk then
              if cbOut = 0 then cbOut else cbOut - 1
            else cbOut
          let lastQHLink2 :=
            if (td.pqhType = kUSBControl ∨ td.pqhType = kUSBBulk) ∧
                cbOut ≠ 0 ∧ cbOut - 1 = 0 then
              lastQHLink ||| kUHCI_QH_T
            else lastQHLink
          let r := dispatchGo tdToUSBError rest forceErr stopAt 0
            kIOReturnSuccess cbOut2 lastQHLink2
          (.complete cb errStatus rem2 :: .free td.tdid :: r.1, r.2)
      else
        let r := dispatchGo tdToUSBError rest forceErr stopAt rem2 accumErr2
          cbOut lastQHLink
        (.free td.tdid :: r.1, r.2)

/-- `AppleUSBUHCI::UHCIUIMDoDoneQueueProcessing`. -/
def UHCIUIMDoDoneQueueProcessing (tdToUSBError : Nat → Nat) (chain : List TD)
    (forceErr : Nat) (stopAt : Option Nat) (cbOut lastQHLink : Nat) :
    List DispatchEvent × Nat × Nat :=
  dispatchGo tdToUSBError chain forceErr stopAt 0 kIOReturnSuccess cbOut
    lastQHLink

/-! ### Reference functions for stating dispatcher properties -/

/-- The first non-success converted status among a transaction's TDs (the
value the dispatcher's error accumulation produces), success if none. -/
def txError (f : Nat → Nat) : List TD → Nat
  | [] => kIOReturnSuccess
  | td :: rest =>
    if f td.ctrlStatus ≠ kIOReturnSuccess then f td.ctrlStatus
    else txError f rest

/-- The residual byte count of a transaction: the sum over its TDs of
maximum length minus actual length. -/
def txResidual : List TD → Nat
  | [] => 0
  | td :: rest =>
    (UHCI_TD_GET_MAXLEN td.token - UHCI_TD_GET_ACTLEN td.ctrlStatus) +
      txResidual rest

/-- A well-formed logical transaction: its non-final TDs, its final TD (the
one flagged last-of-transaction) and its completion callback handle. -/
structure Tx where
  body : List TD
  last : TD
  cb : Nat

/-- All TDs of a transaction, in chain order. -/
def Tx.tds (tx : Tx) : List TD := tx.body ++ [tx.last]

/-- A done chain made of consecutive transactions. -/
def chainOfTxs (txs : List Tx) : List TD := (txs.map Tx.tds).join

/-- The dispatcher events one transaction produces: the non-final TDs are
returned to the pool as they are visited, then the completion fires once
with the accumulated error and residual, then the final TD is returned. -/
def eventsOfTx (f : Nat → Nat) (tx : Tx) : List DispatchEvent :=
  (tx.body.map fun t => .free t.tdid) ++
    [.complete tx.cb (txError f tx.tds) (txResidual tx.tds),
     .free tx.last.tdid]

end UHCI

namespace UHCI

/-- C10: with the host-controller-halted bit set in the status register,
`GetFrameNumber` returns 0 immediately and leaves the stored 64-bit
frame-number state (low and high counters) unchanged; the update logic runs
only when the controller is not halted. -/
theorem getFrameNumber_halted (sts thisFrame : Nat) (s : FrameState)
    (h : sts &&& kUHCI_STS_HCH ≠ 0) :
    GetFrameNumber sts thisFrame s = (0, s) := by
  simp [GetFrameNumber, h]

/-- Witness for `getFrameNumber_halted` at a concrete halted status word. -/
theorem getFrameNumber_halted_witness :
    (0x20 &&& kUHCI_STS_HCH ≠ 0) ∧
      GetFrameNumber 0x20 5 ⟨100, 2⟩ = (0, ⟨100, 2⟩) :=
  ⟨by decide, getFrameNumber_halted 0x20 5 ⟨100, 2⟩ (by decide)⟩

/-- The slicing loop returns its accumulators unchanged once the index has
reached the capacity. -/
lemma sliceLoopGo_stop (mkTD : Nat → Option PoolTD) (numTDs fuel i : Nat)
    (front : List PoolTD) (fv : Option PoolTD) (hi : ¬ i < numTDs) :
    sliceLoopGo mkTD numTDs fuel i front fv = (front, fv) := by
  cases fuel with
  | zero => rfl
  | succ fuel => simp [sliceLoopGo, hi]

/-- When every descriptor creation succeeds and the loop starts at an index
below the capacity, the slicing loop ends with a non-empty free list and a
non-NULL `freeTD` local. -/
lemma sliceLoopGo_isSome (mkTD : Nat → Option PoolTD) (numTDs : Nat)
    (hmk : ∀ j, (mkTD j).isSome) :
    ∀ fuel i front fv, numTDs - i ≤ fuel → i < numTDs →
      ((sliceLoopGo mkTD numTDs fuel i front fv).2).isSome ∧
        (sliceLoopGo mkTD numTDs fuel i front fv).1 ≠ [] := by
  intro fuel
  induction fuel with
  | zero => intro i front fv hk hi; omega
  | succ fuel ih =>
    intro i front fv hk hi
    obtain ⟨td, htd⟩ := Option.isSome_iff_exists.mp (hmk i)
    simp only [sliceLoopGo, if_pos hi, htd]
    by_cases h2 : i + 1 < numTDs
    · exact ih (i + 1) (td :: front) (some td) (by omega) h2
    · rw [sliceLoopGo_stop mkTD numTDs fuel (i + 1) _ _ h2]
      simp

/-- C8: `AllocateTD` (a) returns the explicit out-of-memory signal when the
free list is empty and block allocation fails; (b) zeroes all four
hardware-visible words of every descriptor it returns; (c) succeeds whenever
the free list is empty but a fresh block (capacity at least two, descriptor
creation succeeding) can be allocated — in particular the allocation after
exhausting a block's capacity succeeds. -/
theorem allocateTD_spec (pool : TDPool) (pQH : Option Nat) (numTDs : Nat)
    (mkTD : Nat → Option PoolTD) :
    (pool.freeList = [] → AllocateTD pool pQH false numTDs mkTD = (none, pool)) ∧
    (∀ blockOk td pool2,
        AllocateTD pool pQH blockOk numTDs mkTD = (some td, pool2) →
        td.ctrlStatus = 0 ∧ td.link = 0 ∧ td.token = 0 ∧ td.buffer = 0) ∧
    (pool.freeList = [] → 2 ≤ numTDs → (∀ j, (mkTD j).isSome) →
        ((AllocateTD pool pQH true numTDs mkTD).1).isSome) := by
  refine ⟨?_, ?_, ?_⟩
  · intro hfl
    simp [AllocateTD, hfl]
  · intro blockOk td pool2 h
    unfold AllocateTD at h
    split at h
    · simp only [Prod.mk.injEq, Option.some.injEq] at h
      obtain ⟨rfl, -⟩ := h
      simp [zeroOutTD]
    · split at h
      · split at h <;> dsimp only at h <;> split at h <;>
          first
          | (simp only [Prod.mk.injEq, Option.some.injEq] at h
             obtain ⟨rfl, -⟩ := h
             simp [zeroOutTD])
          | simp at h
      · simp at h
  · intro hfl hn hmk
    have h1 : (1 : Nat) < numTDs := by omega
    obtain ⟨hsome, hne⟩ :=
      sliceLoopGo_isSome mkTD numTDs hmk (numTDs - 1) 1
        (match mkTD 0 with | some t => [t] | none => []) none (by omega) h1
    simp only [AllocateTD, sliceLoop, hfl, if_pos]
    rcases hsl : sliceLoopGo mkTD numTDs (numTDs - 1) 1
        (match mkTD 0 with | some t => [t] | none => []) none with ⟨front, fv⟩
    rw [hsl] at hsome hne
    rcases front with _ | ⟨f, rest⟩
    · simp at hne
    · rcases fv with _ | v
      · simp at hsome
      · simp

/-- Witness for `allocateTD_spec`: an empty pool with a failing block
allocation returns the out-of-memory signal, and with a working block
allocation (capacity 4) the allocation succeeds. -/
theorem allocateTD_spec_witness :
    AllocateTD ⟨[]⟩ none false 4
        (fun _ => some ⟨1, 2, 3, 4, 5, true, 6, 7, some 8, some 9⟩)
      = (none, ⟨[]⟩) ∧
    ((AllocateTD ⟨[]⟩ none true 4
        (fun _ => some ⟨1, 2, 3, 4, 5, true, 6, 7, some 8, some 9⟩)).1).isSome :=
  ⟨(allocateTD_spec ⟨[]⟩ none 4
      (fun _ => some ⟨1, 2, 3, 4, 5, true, 6, 7, some 8, some 9⟩)).1 rfl,
   (allocateTD_spec ⟨[]⟩ none 4
      (fun _ => some ⟨1, 2, 3, 4, 5, true, 6, 7, some 8, some 9⟩)).2.2 rfl
     (by decide) (fun _ => rfl)⟩

/-! ### Isochronous done-queue reversal -/

lemma countEp_cons (d : ITD) (l : List ITD) (e : Nat) :
    countEp (d :: l) e = countEp l e + (if d.ep = some e then 1 else 0) := by
  unfold countEp
  by_cases h : d.ep = some e
  · simp [List.filter_cons, h]
  · simp [List.filter_cons, h]

lemma countEp_nil (e : Nat) : countEp [] e = 0 := by
  simp [countEp]

lemma countEp_reverse (l : List ITD) (e : Nat) :
    countEp l.reverse e = countEp l e := by
  unfold countEp
  rw [List.filter_reverse, List.length_reverse]

/-- The reversal loop, run with exactly `producer - consumer` elements in
the snapshotted queue, reverses the whole queue, raises the consumer count
to the producer count, and moves each element's endpoint bookkeeping from
the producer queue to the reversed list. -/
lemma reverseLoop_spec (P : Nat) :
    ∀ (l : List ITD) (cons : Nat) (acc : List ITD) (opq orl : Nat → Int),
      cons + l.length = P →
      (reverseLoop P l cons acc opq orl).1 = l.reverse ++ acc ∧
      (reverseLoop P l cons acc opq orl).2.1 = P ∧
      (∀ e, (reverseLoop P l cons acc opq orl).2.2.1 e
          = opq e - countEp l e) ∧
      (∀ e, (reverseLoop P l cons acc opq orl).2.2.2 e
          = orl e + countEp l e) := by
  intro l
  induction l with
  | nil =>
    intro cons acc opq orl hP
    simp only [reverseLoop]
    refine ⟨by simp, by simp at hP; omega, ?_, ?_⟩
    · intro e; rw [countEp_nil]; omega
    · intro e; rw [countEp_nil]; omega
  | cons d rest ih =>
    intro cons acc opq orl hP
    cases hde : d.ep with
    | some e0 =>
      simp only [reverseLoop, hde]
      by_cases hstop : P = cons + 1
      · rw [if_pos hstop]
        have hr : rest = [] := by
          have h2 : rest.length = 0 := by simp at hP; omega
          exact List.eq_nil_of_length_eq_zero h2
        subst hr
        refine ⟨by simp, by show cons + 1 = P; omega, ?_, ?_⟩
        · intro e
          rw [countEp_cons, countEp_nil]
          by_cases he : e = e0
          · simp [he, hde]
          · have : d.ep ≠ some e := by rw [hde]; simpa using fun h => he h.symm
            simp [he, this]
        · intro e
          rw [countEp_cons, countEp_nil]
          by_cases he : e = e0
          · simp [he, hde]
          · have : d.ep ≠ some e := by rw [hde]; simpa using fun h => he h.symm
            simp [he, this]
      · rw [if_neg hstop]
        obtain ⟨h1, h2, h3, h4⟩ := ih (cons + 1) (d :: acc)
          (fun x => if x = e0 then opq x - 1 else opq x)
          (fun x => if x = e0 then orl x + 1 else orl x)
          (by simp at hP; omega)
        refine ⟨by rw [h1]; simp, h2, ?_, ?_⟩
        · intro e
          rw [h3 e, countEp_cons]
          by_cases he : e = e0
          · simp [he, hde]; omega
          · have : d.ep ≠ some e := by rw [hde]; simpa using fun h => he h.symm
            simp [he, this]
        · intro e
          rw [h4 e, countEp_cons]
          by_cases he : e = e0
          · simp [he, hde]; omega
          · have : d.ep ≠ some e := by rw [hde]; simpa using fun h => he h.symm
            simp [he, this]
    | none =>
      simp only [reverseLoop, hde]
      by_cases hstop : P = cons + 1
      · rw [if_pos hstop]
        have hr : rest = [] := by
          have h2 : rest.length = 0 := by simp at hP; omega
          exact List.eq_nil_of_length_eq_zero h2
        subst hr
        refine ⟨by simp, by show cons + 1 = P; omega, ?_, ?_⟩
        · intro e
          rw [countEp_cons, countEp_nil]
          simp [hde]
        · intro e
          rw [countEp_cons, countEp_nil]
          simp [hde]
      · rw [if_neg hstop]
        obtain ⟨h1, h2, h3, h4⟩ := ih (cons + 1) (d :: acc) opq orl
          (by simp at hP; omega)
        refine ⟨by rw [h1]; simp, h2, ?_, ?_⟩
        · intro e
          rw [h3 e, countEp_cons]
          simp [hde]
        · intro e
          rw [h4 e, countEp_cons]
          simp [hde]

/-- The drain loop delivers the reversed list in order and takes each
element's endpoint off the reversed-list bookkeeping. -/
lemma drainLoop_spec :
    ∀ (l : List ITD) (orl : Nat → Int) (delivered : List ITD),
      (drainLoop l orl delivered).2 = delivered ++ l ∧
      (∀ e, (drainLoop l orl delivered).1 e = orl e - countEp l e) := by
  intro l
  induction l with
  | nil =>
    intro orl delivered
    refine ⟨by simp [drainLoop], ?_⟩
    intro e; rw [countEp_nil]; simp [drainLoop]
  | cons d rest ih =>
    intro orl delivered
    cases hde : d.ep with
    | some e0 =>
      simp only [drainLoop, hde]
      obtain ⟨h1, h2⟩ := ih (fun x => if x = e0 then orl x - 1 else orl x)
        (delivered ++ [d])
      refine ⟨by rw [h1]; simp, ?_⟩
      intro e
      rw [h2 e, countEp_cons]
      by_cases he : e = e0
      · simp [he, hde]; omega
      · have : d.ep ≠ some e := by rw [hde]; simpa using fun h => he h.symm
        simp [he, this]
    | none =>
      simp only [drainLoop, hde]
      obtain ⟨h1, h2⟩ := ih orl (delivered ++ [d])
      refine ⟨by rw [h1]; simp, ?_⟩
      intro e
      rw [h2 e, countEp_cons]
      simp [hde]

/-- C3: one `scavengeIsochTransactions` pass over a snapshotted done queue
holding exactly `producer - consumer > 0` descriptors consumes all of them,
delivers them in forward (chronological) order — the reverse of the LIFO
discovery order — leaves the consumer count equal to the snapshotted
producer count, decrements each consumed descriptor's endpoint
on-producer-queue counter by one, and increments (during reversal) then
decrements (during the drain) its on-reversed-list counter, so that counter
is balanced after the pass. -/
theorem isochReversal_spec (s : IsochState)
    (hn : s.consumerCount < s.producerCount)
    (hlen : s.consumerCount + s.doneQueue.length = s.producerCount) :
    ((scavengeIsochTransactions s).2 = s.doneQueue.reverse) ∧
    ((scavengeIsochTransactions s).2.length
        = s.producerCount - s.consumerCount) ∧
    ((scavengeIsochTransactions s).1.consumerCount = s.producerCount) ∧
    (∀ e, (scavengeIsochTransactions s).1.onProducerQ e
        = s.onProducerQ e - countEp s.doneQueue e) ∧
    (∀ e, (reverseLoop s.producerCount s.doneQueue s.consumerCount []
        s.onProducerQ s.onReversedList).2.2.2 e
        = s.onReversedList e + countEp s.doneQueue e) ∧
    (∀ e, (scavengeIsochTransactions s).1.onReversedList e
        = s.onReversedList e) := by
  have hne : s.doneQueue ≠ [] := by
    intro h
    rw [h] at hlen
    simp at hlen
    omega
  have hguard : s.doneQueue ≠ [] ∧ s.consumerCount ≠ s.producerCount :=
    ⟨hne, by omega⟩
  obtain ⟨r1, r2, r3, r4⟩ := reverseLoop_spec s.producerCount s.doneQueue
    s.consumerCount [] s.onProducerQ s.onReversedList hlen
  obtain ⟨d1, d2⟩ := drainLoop_spec
    (reverseLoop s.producerCount s.doneQueue s.consumerCount []
      s.onProducerQ s.onReversedList).1
    (reverseLoop s.producerCount s.doneQueue s.consumerCount []
      s.onProducerQ s.onReversedList).2.2.2 []
  simp only [scavengeIsochTransactions, if_pos hguard]
  refine ⟨?_, ?_, ?_, ?_, r4, ?_⟩
  · rw [d1, r1]
    simp
  · rw [d1, r1]
    simp
    omega
  · exact r2
  · intro e
    exact r3 e
  · intro e
    rw [d2 e, r4 e, r1, List.append_nil, countEp_reverse]
    omega

/-- Witness for `isochReversal_spec` on a concrete two-element queue. -/
theorem isochReversal_spec_witness :
    (scavengeIsochTransactions
        ⟨[⟨1, some 0⟩, ⟨2, some 0⟩], 3, 1, fun _ => 2, fun _ => 0⟩).2
      = [⟨2, some 0⟩, ⟨1, some 0⟩] ∧
    (scavengeIsochTransactions
        ⟨[⟨1, some 0⟩, ⟨2, some 0⟩], 3, 1, fun _ => 2,
          fun _ => 0⟩).1.consumerCount = 3 :=
  ⟨(isochReversal_spec ⟨[⟨1, some 0⟩, ⟨2, some 0⟩], 3, 1, fun _ => 2,
      fun _ => 0⟩ (by decide) (by decide)).1,
   (isochReversal_spec ⟨[⟨1, some 0⟩, ⟨2, some 0⟩], 3, 1, fun _ => 2,
      fun _ => 0⟩ (by decide) (by decide)).2.2.1⟩

/-! ### Arithmetic helpers for the frame ladder -/

lemma two_pow_pos' (i : Nat) : 0 < 2 ^ i := Nat.pos_pow_of_pos i (by decide)

/-- Splitting one stride off a divisibility-by-stride condition. -/
lemma mod_step (s d : Nat) (hs : 0 < s) :
    d % s = 0 ↔ d = 0 ∨ (s ≤ d ∧ (d - s) % s = 0) := by
  constructor
  · intro h
    rcases Nat.eq_zero_or_pos d with rfl | hd
    · exact Or.inl rfl
    · have hdvd : s ∣ d := Nat.dvd_iff_mod_eq_zero.mpr h
      have hsd : s ≤ d := Nat.le_of_dvd hd hdvd
      have h2 : s ∣ d - s := Nat.dvd_sub' hdvd dvd_rfl
      exact Or.inr ⟨hsd, Nat.mod_eq_zero_of_dvd h2⟩
  · rintro (rfl | ⟨hsd, h⟩)
    · exact Nat.zero_mod s
    · have h2 : s ∣ d - s := Nat.dvd_iff_mod_eq_zero.mpr h
      have h3 : s ∣ d := by
        have h4 := Nat.dvd_add h2 (dvd_refl s)
        rwa [Nat.sub_add_cancel hsd] at h4
      exact Nat.mod_eq_zero_of_dvd h3

/-- `j % s = s - 1` iff `s` divides `j + 1`. -/
lemma mod_pred_iff (s j : Nat) (hs : 0 < s) :
    j % s = s - 1 ↔ (j + 1) % s = 0 := by
  have key : (j + 1) % s = (j % s + 1) % s := by
    conv_lhs => rw [show j + 1 = j % s + 1 + s * (j / s) by
      have := Nat.mod_add_div j s; omega]
    rw [Nat.add_mul_mod_self_left]
  constructor
  · intro h
    rw [key, h, show s - 1 + 1 = s by omega, Nat.mod_self]
  · intro h
    rw [key] at h
    have hdvd : s ∣ j % s + 1 := Nat.dvd_iff_mod_eq_zero.mpr h
    have hlt : j % s < s := Nat.mod_lt _ hs
    have hle := Nat.le_of_dvd (by omega) hdvd
    omega

/-- The inner-loop slot condition (`j = 2^i - 1, 2^i - 1 + 2^i, ...`) is
divisibility of `k + 1` by the stride. -/
lemma hits_iff (s k : Nat) (hs : 0 < s) :
    (s - 1 ≤ k ∧ (k - (s - 1)) % s = 0) ↔ (k + 1) % s = 0 := by
  constructor
  · rintro ⟨h1, h2⟩
    have hk : k - (s - 1) = k + 1 - s := by omega
    rw [hk] at h2
    have : (k + 1 - s + s) % s = (k + 1 - s) % s := Nat.add_mod_right _ _
    rw [show k + 1 - s + s = k + 1 by omega] at this
    omega
  · intro h
    have hdvd : s ∣ k + 1 := Nat.dvd_iff_mod_eq_zero.mpr h
    have hle : s ≤ k + 1 := Nat.le_of_dvd (by omega) hdvd
    refine ⟨by omega, ?_⟩
    have : (k + 1 - s + s) % s = (k + 1 - s) % s := Nat.add_mod_right _ _
    rw [show k + 1 - s + s = k + 1 by omega] at this
    rw [show k - (s - 1) = k + 1 - s by omega]
    omega

/-! ### Frame-list fill loop -/

/-- Characterization of the inner frame-list loop: slot `k` receives `v`
exactly when it lies on the arithmetic progression starting at `j` with
stride `2^i` (below `nvframes`); all other slots are untouched. -/
lemma installSlotsGo_getElem (v i nvframes : Nat) :
    ∀ fuel frames j, nvframes - j ≤ fuel →
      ∀ k, (installSlotsGo v i nvframes fuel frames j)[k]? =
        if j ≤ k ∧ k < nvframes ∧ (k - j) % 2 ^ i = 0 then
          frames[k]?.map fun _ => v
        else frames[k]? := by
  intro fuel
  induction fuel with
  | zero =>
    intro frames j hf k
    simp only [installSlotsGo]
    rw [if_neg]
    rintro ⟨h1, h2, -⟩
    omega
  | succ fuel ih =>
    intro frames j hf k
    have hs := two_pow_pos' i
    by_cases hj : j < nvframes
    · simp only [installSlotsGo, if_pos hj]
      rw [ih (frames.set j v) (j + 2 ^ i) (by omega) k]
      by_cases hk : k = j
      · subst hk
        rw [if_neg (by rintro ⟨h1, -, -⟩; omega), List.getElem?_set_self',
          if_pos ⟨le_refl k, hj, by simp⟩]
        rfl
      · rw [List.getElem?_set_ne (fun h => hk h.symm)]
        have hiff : (j + 2 ^ i ≤ k ∧ k < nvframes ∧ (k - (j + 2 ^ i)) % 2 ^ i = 0)
            ↔ (j ≤ k ∧ k < nvframes ∧ (k - j) % 2 ^ i = 0) := by
          constructor
          · rintro ⟨h1, h2, h3⟩
            refine ⟨by omega, h2, ?_⟩
            exact (mod_step _ _ hs).mpr (Or.inr ⟨by omega,
              by rwa [show k - (j + 2 ^ i) = k - j - 2 ^ i by omega] at h3⟩)
          · rintro ⟨h1, h2, h3⟩
            rcases (mod_step _ _ hs).mp h3 with h0 | ⟨hle, hmod⟩
            · omega
            · exact ⟨by omega, h2,
                by rwa [show k - (j + 2 ^ i) = k - j - 2 ^ i by omega]⟩
        rw [if_congr hiff rfl rfl]
    · simp only [installSlotsGo, if_neg hj]
      rw [if_neg]
      rintro ⟨h1, h2, -⟩
      omega

/-- Every element of the filled frame list is either the inserted value or
an element of the original list. -/
lemma installSlotsGo_mem (v i nvframes : Nat) :
    ∀ fuel frames j x, x ∈ installSlotsGo v i nvframes fuel frames j →
      x = v ∨ x ∈ frames := by
  intro fuel
  induction fuel with
  | zero => intro frames j x hx; exact Or.inr hx
  | succ fuel ih =>
    intro frames j x hx
    by_cases hj : j < nvframes
    · simp only [installSlotsGo, if_pos hj] at hx
      rcases ih _ _ _ hx with h | h
      · exact Or.inl h
      · rcases List.mem_or_eq_of_mem_set h with h2 | h2
        · exact Or.inr h2
        · exact Or.inl h2
    · simp only [installSlotsGo, if_neg hj] at hx
      exact Or.inr hx

/-! ### The greatest covering level -/

lemma maxLevel_le (j : Nat) : ∀ N, maxLevel j N ≤ N := by
  intro N
  induction N with
  | zero => simp [maxLevel]
  | succ N ih =>
    simp only [maxLevel]
    split
    · omega
    · omega

lemma maxLevel_mod (j : Nat) : ∀ N, (j + 1) % 2 ^ maxLevel j N = 0 := by
  intro N
  induction N with
  | zero => simp [maxLevel, Nat.mod_one]
  | succ N ih =>
    simp only [maxLevel]
    split
    · assumption
    · exact ih

lemma maxLevel_max (j : Nat) : ∀ N m, m ≤ N → (j + 1) % 2 ^ m = 0 →
    m ≤ maxLevel j N := by
  intro N
  induction N with
  | zero => intro m hm _; omega
  | succ N ih =>
    intro m hm hmod
    simp only [maxLevel]
    split
    · omega
    · rcases Nat.lt_or_ge m (N + 1) with h | h
      · exact ih m (by omega) hmod
      · have : m = N + 1 := by omega
        subst this
        omega

/-- The `maxHitFromGo` fuel is irrelevant once it covers the interval. -/
lemma maxHitFromGo_fuel (k nintr : Nat) :
    ∀ f1 f2 i, nintr - i ≤ f1 → nintr - i ≤ f2 →
      maxHitFromGo k nintr f1 i = maxHitFromGo k nintr f2 i := by
  intro f1
  induction f1 with
  | zero =>
    intro f2 i h1 h2
    have hi : ¬ i < nintr := by omega
    cases f2 with
    | zero => rfl
    | succ f2 => simp [maxHitFromGo, hi]
  | succ f1 ih =>
    intro f2 i h1 h2
    by_cases hi : i < nintr
    · cases f2 with
      | zero => omega
      | succ f2 =>
        simp only [maxHitFromGo, if_pos hi]
        rw [ih f2 (i + 1) (by omega) (by omega)]
    · cases f2 with
      | zero => simp [maxHitFromGo, hi]
      | succ f2 => simp [maxHitFromGo, hi]

/-- One-step unfolding of `maxHitFrom` inside the interval. -/
lemma maxHitFrom_step (k i nintr : Nat) (hi : i < nintr) :
    maxHitFrom k i nintr =
      match maxHitFrom k (i + 1) nintr with
      | some l => some l
      | none => if (k + 1) % 2 ^ i = 0 then some i else none := by
  unfold maxHitFrom
  have h1 : nintr - i = (nintr - (i + 1)) + 1 := by omega
  rw [h1]
  simp only [maxHitFromGo, if_pos hi]

/-- `maxHitFrom` outside the interval. -/
lemma maxHitFrom_stop (k i nintr : Nat) (hi : ¬ i < nintr) :
    maxHitFrom k i nintr = none := by
  unfold maxHitFrom
  have h1 : nintr - i = 0 := by omega
  rw [h1]
  rfl

/-- Above the greatest covering level there is no hit. -/
lemma maxHitFrom_none (k N : Nat) :
    ∀ fuel i, N + 1 - i ≤ fuel → maxLevel k N < i →
      maxHitFrom k i (N + 1) = none := by
  intro fuel
  induction fuel with
  | zero =>
    intro i hf hm
    exact maxHitFrom_stop _ _ _ (by omega)
  | succ fuel ih =>
    intro i hf hm
    by_cases hi : i < N + 1
    · rw [maxHitFrom_step k i (N + 1) hi, ih (i + 1) (by omega) (by omega)]
      have hnot : ¬ (k + 1) % 2 ^ i = 0 := by
        intro hmod
        have := maxLevel_max k N i (by omega) hmod
        omega
      simp [hnot]
    · exact maxHitFrom_stop _ _ _ hi

/-- From any level at or below the greatest covering level, `maxHitFrom`
finds exactly the greatest covering level. -/
lemma maxHitFrom_eq (k N : Nat) :
    ∀ fuel i, N + 1 - i ≤ fuel → i ≤ maxLevel k N →
      maxHitFrom k i (N + 1) = some (maxLevel k N) := by
  intro fuel
  induction fuel with
  | zero =>
    intro i hf hm
    have := maxLevel_le k N
    omega
  | succ fuel ih =>
    intro i hf hm
    have hle := maxLevel_le k N
    have hi : i < N + 1 := by omega
    rw [maxHitFrom_step k i (N + 1) hi]
    rcases Nat.lt_or_ge i (maxLevel k N) with h | h
    · rw [ih (i + 1) (by omega) (by omega)]
    · have heq : i = maxLevel k N := by omega
      rw [maxHitFrom_none k N (N + 1 - (i + 1)) (i + 1) (by omega) (by omega)]
      have hmod := maxLevel_mod k N
      simp [heq, hmod]

/-! ### The interrupt-QH allocation loop -/

/-- The interrupt-QH loop never touches the registers already written, the
anchor queue heads, or the run state. -/
lemma intrLoopGo_preserves (allocOk : Nat → Bool) (qhAddr : Nat → Nat)
    (nintr nvframes : Nat) :
    ∀ fuel i la li st,
      ((intrLoopGo allocOk qhAddr nintr nvframes fuel i la li st).frbaseWritten
          = st.frbaseWritten) ∧
      ((intrLoopGo allocOk qhAddr nintr nvframes fuel i la li st).runStarted
          = st.runStarted) ∧
      ((intrLoopGo allocOk qhAddr nintr nvframes fuel i la li st).lastQH
          = st.lastQH) ∧
      ((intrLoopGo allocOk qhAddr nintr nvframes fuel i la li st).fsQH
          = st.fsQH) ∧
      ((intrLoopGo allocOk qhAddr nintr nvframes fuel i la li st).frnum
          = st.frnum) := by
  intro fuel
  induction fuel with
  | zero => intro i la li st; exact ⟨rfl, rfl, rfl, rfl, rfl⟩
  | succ fuel ih =>
    intro i la li st
    by_cases hi : i < nintr
    · by_cases hok : allocOk (4 + i) = true
      · simp only [intrLoopGo, if_pos hi, hok, if_true]
        exact ih _ _ _ _
      · simp [intrLoopGo, hi, hok]
    · simp [intrLoopGo, hi]

/-- With an always-succeeding allocator, the interrupt-QH loop preserves the
result and creates one queue head per remaining level. -/
lemma intrLoopGo_success (allocOk : Nat → Bool) (qhAddr : Nat → Nat)
    (nintr nvframes : Nat) (hok : ∀ n, allocOk n = true) :
    ∀ fuel i la li st, nintr - i ≤ fuel →
      ((intrLoopGo allocOk qhAddr nintr nvframes fuel i la li st).result
          = st.result) ∧
      ((intrLoopGo allocOk qhAddr nintr nvframes fuel i la li st).intrQHs.length
          = st.intrQHs.length + (nintr - i)) := by
  intro fuel
  induction fuel with
  | zero =>
    intro i la li st hf
    refine ⟨rfl, ?_⟩
    show st.intrQHs.length = st.intrQHs.length + (nintr - i)
    omega
  | succ fuel ih =>
    intro i la li st hf
    by_cases hi : i < nintr
    · simp only [intrLoopGo, if_pos hi, hok (4 + i), if_true]
      obtain ⟨h1, h2⟩ := ih (i + 1) (qhAddrWithType (qhAddr (4 + i))) (4 + i)
        _ (by omega)
      refine ⟨h1, ?_⟩
      rw [h2]
      simp only [List.length_append, List.length_cons, List.length_nil]
      omega
    · have hstop : intrLoopGo allocOk qhAddr nintr nvframes (fuel + 1) i la li
          st = st := by
        simp [intrLoopGo, hi]
      rw [hstop]
      exact ⟨rfl, by omega⟩

/-- With an always-succeeding allocator, frame slot `k` ends up holding the
typed address of the queue head of the greatest covering level installed
from level `i` upward (or keeps its previous value when no remaining level
covers it). -/
lemma intrLoopGo_frames (allocOk : Nat → Bool) (qhAddr : Nat → Nat)
    (nintr nvframes : Nat) (hok : ∀ n, allocOk n = true) :
    ∀ fuel i la li st k, nintr - i ≤ fuel → k < nvframes →
      (intrLoopGo allocOk qhAddr nintr nvframes fuel i la li st).frames[k]? =
        match maxHitFrom k i nintr with
        | some l => st.frames[k]?.map fun _ => qhAddrWithType (qhAddr (4 + l))
        | none => st.frames[k]? := by
  intro fuel
  induction fuel with
  | zero =>
    intro i la li st k hf hk
    rw [maxHitFrom_stop k i nintr (by omega)]
    rfl
  | succ fuel ih =>
    intro i la li st k hf hk
    by_cases hi : i < nintr
    · have hs := two_pow_pos' i
      simp only [intrLoopGo, if_pos hi, hok (4 + i), if_true]
      rw [ih (i + 1) (qhAddrWithType (qhAddr (4 + i))) (4 + i) _ k (by omega) hk]
      rw [maxHitFrom_step k i nintr hi]
      have hchar : (installSlots (qhAddrWithType (qhAddr (4 + i))) i nvframes
          st.frames (2 ^ i - 1))[k]? =
          if (k + 1) % 2 ^ i = 0 then
            st.frames[k]?.map fun _ => qhAddrWithType (qhAddr (4 + i))
          else st.frames[k]? := by
        unfold installSlots
        rw [installSlotsGo_getElem _ _ _ _ _ _ (le_refl _) k]
        by_cases hc : (k + 1) % 2 ^ i = 0
        · obtain ⟨ha, hb⟩ := (hits_iff (2 ^ i) k hs).mpr hc
          rw [if_pos ⟨ha, hk, hb⟩, if_pos hc]
        · rw [if_neg, if_neg hc]
          rintro ⟨ha, -, hb⟩
          exact hc ((hits_iff (2 ^ i) k hs).mp ⟨ha, hb⟩)
      cases hmh : maxHitFrom k (i + 1) nintr with
      | some l =>
        simp only [hchar]
        by_cases hc : (k + 1) % 2 ^ i = 0
        · rw [if_pos hc]
          cases st.frames[k]? <;> simp
        · rw [if_neg hc]
      | none =>
        rw [hchar]
        by_cases hc : (k + 1) % 2 ^ i = 0
        · simp [hc]
        · simp [hc]
    · simp only [intrLoopGo, if_neg hi]
      rw [maxHitFrom_stop k i nintr hi]

/-- Every word of the frame list after the interrupt-QH loop is either a
word that was already there or the typed address of a queue head whose
allocation succeeded. -/
lemma intrLoopGo_frames_mem (allocOk : Nat → Bool) (qhAddr : Nat → Nat)
    (nintr nvframes : Nat) :
    ∀ fuel i la li st x,
      x ∈ (intrLoopGo allocOk qhAddr nintr nvframes fuel i la li st).frames →
      x ∈ st.frames ∨ ∃ m, allocOk m = true ∧ x = qhAddrWithType (qhAddr m) := by
  intro fuel
  induction fuel with
  | zero => intro i la li st x hx; exact Or.inl hx
  | succ fuel ih =>
    intro i la li st x hx
    by_cases hi : i < nintr
    · by_cases hok : allocOk (4 + i) = true
      · simp only [intrLoopGo, if_pos hi, hok, if_true] at hx
        rcases ih _ _ _ _ _ hx with h | h
        · unfold installSlots at h
          rcases installSlotsGo_mem _ _ _ _ _ _ _ h with h2 | h2
          · exact Or.inr ⟨4 + i, hok, h2⟩
          · exact Or.inl h2
        · exact Or.inr h
      · simp only [intrLoopGo, if_pos hi, hok, if_false] at hx
        exact Or.inl hx
    · simp only [intrLoopGo, if_neg hi] at hx
      exact Or.inl hx

/-- The success path of `HardwareInit` in closed form: the four anchors, the
interrupt ladder built by `intrLoop`, and the tail QH looped back to the
full-speed control QH. -/
lemma hardwareInit_ok (nintr nvframes : Nat) (qhAddr : Nat → Nat)
    (fi fl : List Nat) :
    HardwareInit nintr nvframes (fun _ => true) qhAddr fi fl =
      { intrLoop (fun _ => true) qhAddr nintr nvframes 0
          (qhAddrWithType (qhAddr 3)) 3 (anchorsState qhAddr fi fl) with
        lastQH := some ⟨qhAddr 0, qhAddrWithType (qhAddr 2) ||| kUHCI_QH_T,
          kUHCI_QH_T, none, kQHTypeDummy⟩,
        runStarted := true } := by
  have hres := (intrLoopGo_success (fun _ => true) qhAddr nintr nvframes
    (fun _ => rfl) (nintr - 0) 0 (qhAddrWithType (qhAddr 3)) 3
    (anchorsState qhAddr fi fl) (le_refl _)).1
  simp only [HardwareInit]
  norm_num
  split
  · rfl
  · next hcond => exact absurd hres hcond

/-- C2: building the schedule over `2^N` virtual frames with an
always-succeeding allocator creates exactly `N + 1` interrupt queue heads;
every frame slot `j` ends up holding the typed address of the queue head of
the largest level `i ≤ N` with `j ≡ 2^i - 1 (mod 2^i)`; and `maxLevel j N`
is indeed that largest level, so the slot is polled with period exactly
`2 ^ maxLevel j N`. -/
theorem initializeSchedule_ladder (N : Nat) (qhAddr : Nat → Nat)
    (initFrames initLogical : List Nat) (hlen : initFrames.length = 2 ^ N) :
    ((HardwareInit (N + 1) (2 ^ N) (fun _ => true) qhAddr initFrames
        initLogical).intrQHs.length = N + 1) ∧
    (∀ j, j < 2 ^ N →
      (HardwareInit (N + 1) (2 ^ N) (fun _ => true) qhAddr initFrames
          initLogical).frames[j]? =
        some (qhAddrWithType (qhAddr (4 + maxLevel j N)))) ∧
    (∀ i j, i ≤ N → j < 2 ^ N →
      (i ≤ maxLevel j N ↔ j % 2 ^ i = 2 ^ i - 1)) := by
  rw [hardwareInit_ok]
  refine ⟨?_, ?_, ?_⟩
  · show (intrLoop (fun _ => true) qhAddr (N + 1) (2 ^ N) 0
      (qhAddrWithType (qhAddr 3)) 3 _).intrQHs.length = N + 1
    unfold intrLoop
    rw [(intrLoopGo_success (fun _ => true) qhAddr (N + 1) (2 ^ N)
      (fun _ => rfl) (N + 1 - 0) 0 _ _ _ (le_refl _)).2]
    simp [anchorsState]
  · intro j hj
    show (intrLoop (fun _ => true) qhAddr (N + 1) (2 ^ N) 0
      (qhAddrWithType (qhAddr 3)) 3 _).frames[j]? = _
    unfold intrLoop
    rw [intrLoopGo_frames (fun _ => true) qhAddr (N + 1) (2 ^ N)
      (fun _ => rfl) (N + 1 - 0) 0 _ _ _ j (le_refl _) hj]
    rw [maxHitFrom_eq j N (N + 1) 0 (by omega) (by omega)]
    have hjo : initFrames[j]? = some initFrames[j] :=
      List.getElem?_eq_getElem (by omega)
    simp [anchorsState, hjo]
  · intro i j hi hj
    have hs := two_pow_pos' i
    constructor
    · intro hle
      have h1 : (2 : Nat) ^ i ∣ 2 ^ maxLevel j N := pow_dvd_pow 2 hle
      have h2 : (2 : Nat) ^ maxLevel j N ∣ j + 1 :=
        Nat.dvd_iff_mod_eq_zero.mpr (maxLevel_mod j N)
      exact (mod_pred_iff (2 ^ i) j hs).mpr
        (Nat.mod_eq_zero_of_dvd (h1.trans h2))
    · intro hmod
      exact maxLevel_max j N i hi ((mod_pred_iff (2 ^ i) j hs).mp hmod)

/-- Witness for `initializeSchedule_ladder` at `N = 2` (four virtual
frames). -/
theorem initializeSchedule_ladder_witness :
    (List.replicate 4 (0 : Nat)).length = 2 ^ 2 ∧
    ((HardwareInit 3 4 (fun _ => true) (fun n => 16 * (n + 1))
        (List.replicate 4 0) (List.replicate 4 0)).intrQHs.length = 3) :=
  ⟨by decide,
    (initializeSchedule_ladder 2 (fun n => 16 * (n + 1)) (List.replicate 4 0)
      (List.replicate 4 0) (by decide)).1⟩

/-- C6: after schedule construction completes, the tail dummy QH's hardware
link word holds the full-speed control QH's physical address with the
queue-head-type bit set (and the terminate bit, cleared later when
control/bulk work is queued), while the tail QH's software next pointer is
still null: the reclamation loop exists only in the hardware link. -/
theorem bandwidthReclamation_loopback (nintr nvframes : Nat)
    (qhAddr : Nat → Nat) (initFrames initLogical : List Nat) :
    ∃ lq fs,
      (HardwareInit nintr nvframes (fun _ => true) qhAddr initFrames
          initLogical).lastQH = some lq ∧
      (HardwareInit nintr nvframes (fun _ => true) qhAddr initFrames
          initLogical).fsQH = some fs ∧
      lq.hwLink = (fs.physAddr ||| kUHCI_QH_Q) ||| kUHCI_QH_T ∧
      lq.softNext = none := by
  rw [hardwareInit_ok]
  refine ⟨⟨qhAddr 0, qhAddrWithType (qhAddr 2) ||| kUHCI_QH_T, kUHCI_QH_T,
    none, kQHTypeDummy⟩,
    ⟨qhAddr 2, qhAddrWithType (qhAddr 1), kUHCI_QH_T, some 1, kQHTypeDummy⟩,
    rfl, ?_, rfl, rfl⟩
  show (intrLoop (fun _ => true) qhAddr nintr nvframes 0
    (qhAddrWithType (qhAddr 3)) 3 _).fsQH = _
  unfold intrLoop
  rw [(intrLoopGo_preserves (fun _ => true) qhAddr nintr nvframes
    (nintr - 0) 0 _ _ _).2.2.2.1]
  rfl

/-- C7 (amended): when a queue-head allocation fails, `HardwareInit` aborts
with the out-of-memory result, but the frame-base-address register has
already been published (it is written before any queue-head allocation) and
nothing is rolled back; still, the controller is never started during the
failed initialization, and every frame-list word is either its initial
value or the typed address of a queue head whose allocation succeeded —
never a freed or uninitialized descriptor. -/
theorem hardwareInit_failure_state (nintr nvframes : Nat)
    (allocOk : Nat → Bool) (qhAddr : Nat → Nat)
    (initFrames initLogical : List Nat)
    (hfail : (HardwareInit nintr nvframes allocOk qhAddr initFrames
        initLogical).result = .noMemory) :
    ((HardwareInit nintr nvframes allocOk qhAddr initFrames
        initLogical).frbaseWritten = true) ∧
    ((HardwareInit nintr nvframes allocOk qhAddr initFrames
        initLogical).runStarted = false) ∧
    (∀ x ∈ (HardwareInit nintr nvframes allocOk qhAddr initFrames
        initLogical).frames,
      x ∈ initFrames ∨ ∃ m, allocOk m = true ∧ x = qhAddrWithType (qhAddr m)) := by
  revert hfail
  simp only [HardwareInit]
  by_cases h0 : allocOk 0 = true
  case neg =>
    rw [if_pos h0]
    exact fun _ => ⟨rfl, rfl, fun x hx => Or.inl hx⟩
  rw [if_neg (fun hc => hc h0)]
  by_cases h1 : allocOk 1 = true
  case neg =>
    rw [if_pos h1]
    exact fun _ => ⟨rfl, rfl, fun x hx => Or.inl hx⟩
  rw [if_neg (fun hc => hc h1)]
  by_cases h2 : allocOk 2 = true
  case neg =>
    rw [if_pos h2]
    exact fun _ => ⟨rfl, rfl, fun x hx => Or.inl hx⟩
  rw [if_neg (fun hc => hc h2)]
  by_cases h3 : allocOk 3 = true
  case neg =>
    rw [if_pos h3]
    exact fun _ => ⟨rfl, rfl, fun x hx => Or.inl hx⟩
  rw [if_neg (fun hc => hc h3)]
  split
  · next hcond =>
      intro _
      obtain ⟨hfb, hrs, -, -, -⟩ := intrLoopGo_preserves allocOk qhAddr nintr
        nvframes (nintr - 0) 0 (qhAddrWithType (qhAddr 3)) 3
        (anchorsState qhAddr initFrames initLogical)
      refine ⟨hfb, hrs, fun x hx => ?_⟩
      rcases intrLoopGo_frames_mem allocOk qhAddr nintr nvframes (nintr - 0) 0
        (qhAddrWithType (qhAddr 3)) 3
        (anchorsState qhAddr initFrames initLogical) x hx with h | h
      · exact Or.inl h
      · exact Or.inr h
  · next hcond =>
      rw [Decidable.not_not] at hcond
      intro hfail
      exact absurd (hcond.symm.trans hfail) (by decide)

/-- Witness for `hardwareInit_failure_state`: schedule construction with the
first interrupt-level allocation failing. -/
theorem hardwareInit_failure_state_witness :
    ((HardwareInit 3 4 (fun n => decide (n < 4)) (fun n => 16 * (n + 1))
        (List.replicate 4 99) (List.replicate 4 99)).result =
      InitResult.noMemory) ∧
    ((HardwareInit 3 4 (fun n => decide (n < 4)) (fun n => 16 * (n + 1))
        (List.replicate 4 99) (List.replicate 4 99)).runStarted = false) :=
  ⟨by decide,
    (hardwareInit_failure_state 3 4 (fun n => decide (n < 4))
      (fun n => 16 * (n + 1)) (List.replicate 4 99) (List.replicate 4 99)
      (by decide)).2.1⟩

/-- C7 counterexample: with the first interrupt-level queue-head allocation
failing, `HardwareInit` returns out-of-memory but the frame-base-address
register has already been published and the partially built queue-head chain
(the tail dummy QH) is still in place — neither disjunct of the claimed
"rolled back or never published" property holds. -/
theorem hardwareInit_publishes_before_alloc :
    ((HardwareInit 3 4 (fun n => decide (n < 4)) (fun n => 16 * (n + 1))
        (List.replicate 4 99) (List.replicate 4 99)).result =
      InitResult.noMemory) ∧
    ((HardwareInit 3 4 (fun n => decide (n < 4)) (fun n => 16 * (n + 1))
        (List.replicate 4 99) (List.replicate 4 99)).frbaseWritten = true) ∧
    ((HardwareInit 3 4 (fun n => decide (n < 4)) (fun n => 16 * (n + 1))
        (List.replicate 4 99) (List.replicate 4 99)).lastQH ≠ none) := by
  refine ⟨by decide, by decide, by decide⟩

/-! ### Dispatcher trace characterization (C4) -/

/-- Processing one well-formed transaction at the head of the done chain:
the non-final TDs are freed as visited, the completion fires once with the
accumulated error and residual, the final TD is freed, and processing
continues on the rest with the per-transaction accumulators reset. -/
lemma dispatchGo_tx (f : Nat → Nat) (last : TD) (cb : Nat) (rest : List TD)
    (cbOut l : Nat) (hlast : last.lastTDofTransaction = true)
    (hcmd : last.command = some (some cb)) :
    ∀ (body : List TD) (rem accum : Nat),
      (∀ t ∈ body, t.lastTDofTransaction = false) →
      (∀ t ∈ body ++ [last],
        UHCI_TD_GET_ACTLEN t.ctrlStatus ≤ UHCI_TD_GET_MAXLEN t.token) →
      rem + txResidual (body ++ [last]) < mod32 →
      (dispatchGo f (body ++ last :: rest) 0 none rem accum cbOut l).1 =
        (body.map fun t => DispatchEvent.free t.tdid) ++
          [DispatchEvent.complete cb
              (if accum ≠ 0 then accum else txError f (body ++ [last]))
              (rem + txResidual (body ++ [last])),
            DispatchEvent.free last.tdid] ++
          (dispatchGo f rest 0 none 0 0
            (if last.pqhType = kUSBControl ∨ last.pqhType = kUSBBulk then
              if cbOut = 0 then cbOut else cbOut - 1
            else cbOut)
            (if (last.pqhType = kUSBControl ∨ last.pqhType = kUSBBulk) ∧
                cbOut ≠ 0 ∧ cbOut - 1 = 0 then
              l ||| kUHCI_QH_T
            else l)).1 := by
  intro body
  induction body with
  | nil =>
    intro rem accum hbody hle hres
    have hlt : UHCI_TD_GET_ACTLEN last.ctrlStatus
        ≤ UHCI_TD_GET_MAXLEN last.token := hle last (by simp)
    simp only [List.nil_append, dispatchGo, hlast, hcmd, kIOReturnSuccess,
      eq_self_iff_true, if_true]
    rw [if_neg (show ¬ (none : Option Nat) = some last.tdid by simp)]
    rw [if_neg (show ¬ ((0 : Nat) ≠ 0) by simp)]
    have hmax : UHCI_TD_GET_MAXLEN last.token < mod32 := by
      unfold UHCI_TD_GET_MAXLEN kUHCI_FRNUM_MASK mod32
      have h9 := @Nat.and_le_right ((last.token >>> 21) + 1) 0x7FF
      omega
    have hmod : (UHCI_TD_GET_MAXLEN last.token + mod32 -
        UHCI_TD_GET_ACTLEN last.ctrlStatus) % mod32 =
        UHCI_TD_GET_MAXLEN last.token - UHCI_TD_GET_ACTLEN last.ctrlStatus := by
      rw [show UHCI_TD_GET_MAXLEN last.token + mod32 -
          UHCI_TD_GET_ACTLEN last.ctrlStatus =
          (UHCI_TD_GET_MAXLEN last.token -
            UHCI_TD_GET_ACTLEN last.ctrlStatus) + mod32 by omega]
      rw [Nat.add_mod_right]
      exact Nat.mod_eq_of_lt (by omega)
    rw [hmod]
    have hresval : txResidual ([] ++ [last]) = UHCI_TD_GET_MAXLEN last.token -
        UHCI_TD_GET_ACTLEN last.ctrlStatus := by
      simp [txResidual]
    have hres2 : rem + (UHCI_TD_GET_MAXLEN last.token -
        UHCI_TD_GET_ACTLEN last.ctrlStatus) < mod32 := by
      rw [hresval] at hres
      omega
    rw [Nat.mod_eq_of_lt hres2]
    simp only [List.map_nil, List.nil_append, List.cons_append,
      List.singleton_append, List.cons.injEq, DispatchEvent.complete.injEq]
    refine ⟨⟨trivial, ?_, ?_⟩, trivial⟩
    · by_cases ha : accum ≠ 0
      · simp [ha]
      · simp only [ne_eq, Decidable.not_not] at ha
        subst ha
        simp only [ne_eq, not_true_eq_false, if_false]
        simp only [txError, kIOReturnSuccess, List.nil_append]
        by_cases hf : f last.ctrlStatus = 0
        · simp [hf]
        · simp [hf]
    · have h7 : txResidual [last] = UHCI_TD_GET_MAXLEN last.token -
          UHCI_TD_GET_ACTLEN last.ctrlStatus := by simp [txResidual]
      rw [h7]
  | cons t body ih =>
    intro rem accum hbody hle hres
    have hlt : UHCI_TD_GET_ACTLEN t.ctrlStatus
        ≤ UHCI_TD_GET_MAXLEN t.token := hle t (by simp)
    have htl : t.lastTDofTransaction = false := hbody t (by simp)
    rw [List.cons_append] at hres
    have hresc : txResidual (t :: (body ++ [last])) =
        (UHCI_TD_GET_MAXLEN t.token - UHCI_TD_GET_ACTLEN t.ctrlStatus) +
        txResidual (body ++ [last]) := rfl
    have hmax : UHCI_TD_GET_MAXLEN t.token < mod32 := by
      unfold UHCI_TD_GET_MAXLEN kUHCI_FRNUM_MASK mod32
      have h9 := @Nat.and_le_right ((t.token >>> 21) + 1) 0x7FF
      omega
    simp only [List.cons_append, dispatchGo, htl, kIOReturnSuccess,
      Bool.false_eq_true, if_false]
    rw [if_neg (show ¬ (none : Option Nat) = some t.tdid by simp)]
    rw [if_neg (show ¬ ((0 : Nat) ≠ 0) by simp)]
    have hmod : (UHCI_TD_GET_MAXLEN t.token + mod32 -
        UHCI_TD_GET_ACTLEN t.ctrlStatus) % mod32 =
        UHCI_TD_GET_MAXLEN t.token - UHCI_TD_GET_ACTLEN t.ctrlStatus := by
      rw [show UHCI_TD_GET_MAXLEN t.token + mod32 -
          UHCI_TD_GET_ACTLEN t.ctrlStatus =
          (UHCI_TD_GET_MAXLEN t.token -
            UHCI_TD_GET_ACTLEN t.ctrlStatus) + mod32 by omega]
      rw [Nat.add_mod_right]
      exact Nat.mod_eq_of_lt (by omega)
    rw [hmod]
    have hres4 : rem + (UHCI_TD_GET_MAXLEN t.token -
        UHCI_TD_GET_ACTLEN t.ctrlStatus) < mod32 := by
      rw [hresc] at hres
      omega
    rw [Nat.mod_eq_of_lt hres4]
    simp only [List.append_eq]
    rw [ih (rem + (UHCI_TD_GET_MAXLEN t.token -
        UHCI_TD_GET_ACTLEN t.ctrlStatus))
      (if accum ≠ 0 then accum else f t.ctrlStatus)
      (fun u hu => hbody u (by simp [hu]))
      (fun u hu => hle u (by simp at hu ⊢; tauto))
      (by rw [hresc] at hres; omega)]
    simp only [List.map_cons, List.cons_append, List.cons.injEq,
      DispatchEvent.complete.injEq]
    refine ⟨trivial, ?_⟩
    have herr : (if (if accum ≠ 0 then accum else f t.ctrlStatus) ≠ 0 then
        (if accum ≠ 0 then accum else f t.ctrlStatus)
        else txError f (body ++ [last]))
        = (if accum ≠ 0 then accum
           else txError f (t :: (body ++ [last]))) := by
      by_cases ha : accum ≠ 0
      · simp [ha]
      · simp only [ne_eq, Decidable.not_not] at ha
        subst ha
        simp only [ne_eq, not_true_eq_false, if_false]
        by_cases hf : f t.ctrlStatus = 0
        · simp [hf, txError, kIOReturnSuccess]
        · simp [hf, txError, kIOReturnSuccess]
    have hres5 : rem + (UHCI_TD_GET_MAXLEN t.token -
        UHCI_TD_GET_ACTLEN t.ctrlStatus) + txResidual (body ++ [last])
        = rem + txResidual (t :: (body ++ [last])) := by
      rw [hresc]
      omega
    rw [herr, hres5]

/-- The dispatcher trace over a chain of well-formed transactions is the
concatenation of the per-transaction traces. -/
lemma dispatcher_trace_aux (f : Nat → Nat) :
    ∀ (txs : List Tx) (cbOut l : Nat),
      (∀ tx ∈ txs, (∀ t ∈ tx.body, t.lastTDofTransaction = false) ∧
        tx.last.lastTDofTransaction = true ∧
        tx.last.command = some (some tx.cb)) →
      (∀ tx ∈ txs, ∀ t ∈ tx.tds,
        UHCI_TD_GET_ACTLEN t.ctrlStatus ≤ UHCI_TD_GET_MAXLEN t.token) →
      (∀ tx ∈ txs, txResidual tx.tds < mod32) →
      (dispatchGo f (chainOfTxs txs) 0 none 0 0 cbOut l).1
        = (txs.map (eventsOfTx f)).join := by
  intro txs
  induction txs with
  | nil =>
    intro cbOut l _ _ _
    simp [chainOfTxs, dispatchGo]
  | cons tx txs ih =>
    intro cbOut l hwf hle hres
    obtain ⟨hb, hl, hc⟩ := hwf tx (by simp)
    have hchain : chainOfTxs (tx :: txs)
        = tx.body ++ tx.last :: chainOfTxs txs := by
      simp [chainOfTxs, Tx.tds, List.append_assoc]
    rw [hchain, dispatchGo_tx f tx.last tx.cb (chainOfTxs txs) cbOut l hl hc
      tx.body 0 0 hb
      (by intro u hu; exact hle tx (by simp) u (by simpa [Tx.tds] using hu))
      (by simpa [Tx.tds] using hres tx (by simp))]
    rw [ih _ _ (fun u hu => hwf u (by simp [hu]))
      (fun u hu => hle u (by simp [hu]))
      (fun u hu => hres u (by simp [hu]))]
    simp only [List.map_cons, List.join, eventsOfTx, Tx.tds]
    simp

/-- C4 (amended): `UHCIUIMDoDoneQueueProcessing` walks the done chain once
and, per logical transaction, invokes the completion callback exactly once
with the accumulated error (the first non-success TD status of the
transaction) and the accumulated residual length (the sum of max length
minus actual length over the transaction); the accumulators reset after
each completed transaction.  Every visited TD is returned to the pool when
it is visited: the TDs before the last one are freed before the
transaction's callback fires, and the last TD is freed right after it.  A
last TD with a missing command handle produces a logged invariant
violation, not a silent drop. -/
theorem dispatcher_transaction_trace (f : Nat → Nat) (txs : List Tx)
    (cbOut l : Nat)
    (hwf : ∀ tx ∈ txs, (∀ t ∈ tx.body, t.lastTDofTransaction = false) ∧
      tx.last.lastTDofTransaction = true ∧
      tx.last.command = some (some tx.cb))
    (hle : ∀ tx ∈ txs, ∀ t ∈ tx.tds,
      UHCI_TD_GET_ACTLEN t.ctrlStatus ≤ UHCI_TD_GET_MAXLEN t.token)
    (hres : ∀ tx ∈ txs, txResidual tx.tds < mod32) :
    ((UHCIUIMDoDoneQueueProcessing f (chainOfTxs txs) 0 none cbOut l).1
      = (txs.map (eventsOfTx f)).join) ∧
    (∀ t : TD, t.lastTDofTransaction = true → t.command = none →
      (UHCIUIMDoDoneQueueProcessing f [t] 0 none cbOut l).1
        = [DispatchEvent.missingCommandLog t.tdid,
           DispatchEvent.free t.tdid]) := by
  refine ⟨dispatcher_trace_aux f txs cbOut l hwf hle hres, ?_⟩
  intro t ht hcmd
  simp [UHCIUIMDoDoneQueueProcessing, dispatchGo, ht, hcmd]

/-- Witness for `dispatcher_transaction_trace`: a two-TD transaction with
full-length zero-byte packets and callback handle 7. -/
theorem dispatcher_transaction_trace_witness :
    (UHCIUIMDoDoneQueueProcessing (fun _ => 0)
        (chainOfTxs [⟨[⟨0, 0x7FF, 0, 0, false, some (some 7), 2, false, 0,
          false⟩], ⟨1, 0x7FF, 0, 0, true, some (some 7), 2, false, 0, false⟩,
          7⟩]) 0 none 5 0).1
      = [DispatchEvent.free 0, DispatchEvent.complete 7 0 2,
         DispatchEvent.free 1] :=
  (dispatcher_transaction_trace (fun _ => 0)
    [⟨[⟨0, 0x7FF, 0, 0, false, some (some 7), 2, false, 0, false⟩],
      ⟨1, 0x7FF, 0, 0, true, some (some 7), 2, false, 0, false⟩, 7⟩]
    5 0 (by decide) (by decide) (by decide)).1

/-- C4 counterexample: on a two-TD transaction the dispatcher's very first
event returns the transaction's first TD to the pool, before the
transaction's completion callback (the second event) has fired — refuting
the claim that every visited TD is returned to the pool only after its
transaction's callback. -/
theorem dispatcher_frees_before_callback :
    ((UHCIUIMDoDoneQueueProcessing (fun _ => 0)
        [⟨0, 0x7FF, 0, 0, false, some (some 7), 2, false, 0, false⟩,
         ⟨1, 0x7FF, 0, 0, true, some (some 7), 2, false, 0, false⟩]
        0 none 5 0).1
      = [DispatchEvent.free 0, DispatchEvent.complete 7 0 2,
         DispatchEvent.free 1]) ∧
    ((UHCIUIMDoDoneQueueProcessing (fun _ => 0)
        [⟨0, 0x7FF, 0, 0, false, some (some 7), 2, false, 0, false⟩,
         ⟨1, 0x7FF, 0, 0, true, some (some 7), 2, false, 0, false⟩]
        0 none 5 0).1.head? = some (DispatchEvent.free 0)) := by
  refine ⟨by decide, by decide⟩

/-! ### The TD-chain walk: step lemmas, crossing lemmas and shape
invariants (C1, C5, C9)

Each `step` lemma characterizes one iteration of `tdWalkGo` under the
branch conditions the source tests; the `walk` lemmas cross a maximal run
of same-kind TDs; `scavengedShape` is the induction showing a walk always
leaves its queue head's chain in a `Scavenged` shape, and `walkScavenged`
shows a walk started on such a shape harvests nothing. -/


theorem scav_tdid (t : TD) : (scavAlignBuffer t).tdid = t.tdid := by
  unfold scavAlignBuffer; repeat' split
  all_goals rfl

theorem scav_ctrlStatus (t : TD) :
    (scavAlignBuffer t).ctrlStatus = t.ctrlStatus := by
  unfold scavAlignBuffer; repeat' split
  all_goals rfl

theorem scav_token (t : TD) : (scavAlignBuffer t).token = t.token := by
  unfold scavAlignBuffer; repeat' split
  all_goals rfl

theorem scav_physAddr (t : TD) :
    (scavAlignBuffer t).physAddr = t.physAddr := by
  unfold scavAlignBuffer; repeat' split
  all_goals rfl

theorem scav_lastTD (t : TD) :
    (scavAlignBuffer t).lastTDofTransaction = t.lastTDofTransaction := by
  unfold scavAlignBuffer; repeat' split
  all_goals rfl

theorem scav_plain (l : Option Nat) (t : TD) (h : PlainTD l t) :
    PlainTD l (scavAlignBuffer t) := by
  unfold PlainTD at h ⊢
  simp only [scav_tdid, scav_ctrlStatus, scav_token, scav_lastTD]
  exact h

theorem scav_trigger (l : Option Nat) (t : TD) (h : TriggerTD l t) :
    TriggerTD l (scavAlignBuffer t) := by
  unfold TriggerTD at h ⊢
  simp only [scav_tdid, scav_ctrlStatus, scav_token, scav_lastTD]
  exact h

theorem scav_blind (l : Option Nat) (t : TD) (h : BlindTD l t) :
    BlindTD l (scavAlignBuffer t) := by
  unfold BlindTD at h ⊢
  simp only [scav_tdid, scav_lastTD]
  exact h
theorem stepStop (qhType : Nat) (lastTDId : Option Nat) (fuel : Nat)
    (qTD : TD) (rest : List TD) (th st : Bool) (lt : Nat)
    (seg done : List TD) (stalled : Bool) (elink c : Nat)
    (h : some qTD.tdid = lastTDId) :
    tdWalkGo qhType lastTDId (fuel + 1) (qTD :: rest) th st lt seg done
      stalled elink c = ⟨done, seg ++ qTD :: rest, stalled, elink⟩ := by
  simp only [tdWalkGo]
  rw [if_pos h]

theorem stepActive (qhType : Nat) (lastTDId : Option Nat) (fuel : Nat)
    (qTD : TD) (rest : List TD) (lt : Nat) (seg done : List TD)
    (stalled : Bool) (elink c : Nat)
    (hstop : ¬ some qTD.tdid = lastTDId) (hc : c < 150000)
    (hact : qTD.ctrlStatus &&& kUHCI_TD_ACTIVE ≠ 0) :
    tdWalkGo qhType lastTDId (fuel + 1) (qTD :: rest) false false lt seg done
      stalled elink c = ⟨done, seg ++ qTD :: rest, stalled, elink⟩ := by
  simp only [tdWalkGo]
  rw [if_neg hstop, if_neg (not_not_intro hc)]
  simp only [true_and]
  rw [if_pos hact]

theorem stepPlain (qhType : Nat) (lastTDId : Option Nat) (fuel : Nat)
    (qTD r0 : TD) (rs : List TD) (lt : Nat) (seg done : List TD)
    (stalled : Bool) (elink c : Nat)
    (hstop : ¬ some qTD.tdid = lastTDId) (hc : c < 150000)
    (hact : qTD.ctrlStatus &&& kUHCI_TD_ACTIVE = 0)
    (hstall : qTD.ctrlStatus &&& kUHCI_TD_STALLED = 0)
    (hshort : ¬ (qTD.ctrlStatus &&& kUHCI_TD_SPD ≠ 0 ∧
      UHCI_TD_GET_ACTLEN qTD.ctrlStatus < UHCI_TD_GET_MAXLEN qTD.token))
    (hlast : qTD.lastTDofTransaction = false) :
    tdWalkGo qhType lastTDId (fuel + 1) (qTD :: r0 :: rs) false false lt seg
      done stalled elink c =
    tdWalkGo qhType lastTDId fuel (r0 :: rs) false false lt
      (seg ++ [scavAlignBuffer qTD]) done stalled elink (c + 1) := by
  simp only [tdWalkGo]
  rw [if_neg hstop, if_neg (not_not_intro hc)]
  simp only [true_and]
  rw [if_neg (show ¬ (qTD.ctrlStatus &&& kUHCI_TD_ACTIVE ≠ 0)
    from not_not_intro hact)]
  simp [hstall, hshort, hlast]

theorem stepTrigHalt (qhType : Nat) (lastTDId : Option Nat) (fuel : Nat)
    (qTD r0 : TD) (rs : List TD) (lt : Nat) (seg done : List TD)
    (stalled : Bool) (elink c : Nat)
    (hstop : ¬ some qTD.tdid = lastTDId) (hc : c < 150000)
    (hact : qTD.ctrlStatus &&& kUHCI_TD_ACTIVE = 0)
    (hstall : qTD.ctrlStatus &&& kUHCI_TD_STALLED ≠ 0)
    (hlast : qTD.lastTDofTransaction = false) :
    tdWalkGo qhType lastTDId (fuel + 1) (qTD :: r0 :: rs) false false lt seg
      done stalled elink c =
    tdWalkGo qhType lastTDId fuel (r0 :: rs) true false lt
      (seg ++ [scavAlignBuffer qTD]) done true elink (c + 1) := by
  simp only [tdWalkGo]
  rw [if_neg hstop, if_neg (not_not_intro hc)]
  simp only [true_and]
  rw [if_neg (show ¬ (qTD.ctrlStatus &&& kUHCI_TD_ACTIVE ≠ 0)
    from not_not_intro hact)]
  simp [hstall, hlast]

theorem stepTrigShort (qhType : Nat) (lastTDId : Option Nat) (fuel : Nat)
    (qTD r0 : TD) (rs : List TD) (lt : Nat) (seg done : List TD)
    (stalled : Bool) (elink c : Nat)
    (hstop : ¬ some qTD.tdid = lastTDId) (hc : c < 150000)
    (hact : qTD.ctrlStatus &&& kUHCI_TD_ACTIVE = 0)
    (hstall : qTD.ctrlStatus &&& kUHCI_TD_STALLED = 0)
    (hspd : qTD.ctrlStatus &&& kUHCI_TD_SPD ≠ 0)
    (hsh : UHCI_TD_GET_ACTLEN qTD.ctrlStatus < UHCI_TD_GET_MAXLEN qTD.token)
    (hlast : qTD.lastTDofTransaction = false) :
    tdWalkGo qhType lastTDId (fuel + 1) (qTD :: r0 :: rs) false false lt seg
      done stalled elink c =
    tdWalkGo qhType lastTDId fuel (r0 :: rs) false true
      (qTD.token &&& kUHCI_TD_D)
      (seg ++ [scavAlignBuffer qTD]) done stalled elink (c + 1) := by
  simp only [tdWalkGo]
  rw [if_neg hstop, if_neg (not_not_intro hc)]
  simp only [true_and]
  rw [if_neg (show ¬ (qTD.ctrlStatus &&& kUHCI_TD_ACTIVE ≠ 0)
    from not_not_intro hact)]
  simp [hstall, hspd, hsh, hlast]

theorem stepBlind (qhType : Nat) (lastTDId : Option Nat) (fuel : Nat)
    (qTD r0 : TD) (rs : List TD) (th st : Bool) (lt : Nat)
    (seg done : List TD) (stalled : Bool) (elink c : Nat)
    (hd : th = true ∨ st = true)
    (hstop : ¬ some qTD.tdid = lastTDId) (hc : c < 150000)
    (hlast : qTD.lastTDofTransaction = false) :
    tdWalkGo qhType lastTDId (fuel + 1) (qTD :: r0 :: rs) th st lt seg
      done stalled elink c =
    tdWalkGo qhType lastTDId fuel (r0 :: rs) th st lt
      (seg ++ [scavAlignBuffer qTD]) done stalled elink (c + 1) := by
  rcases hd with h | h <;> subst h
  · simp only [tdWalkGo]
    rw [if_neg hstop, if_neg (not_not_intro hc)]
    simp [hlast]
  · simp only [tdWalkGo]
    rw [if_neg hstop, if_neg (not_not_intro hc)]
    simp [hlast]
theorem stepHarvestShort (qhType : Nat) (lastTDId : Option Nat) (fuel : Nat)
    (qTD r0 : TD) (rs : List TD) (lt : Nat) (seg done : List TD)
    (stalled : Bool) (elink c : Nat)
    (hstop : ¬ some qTD.tdid = lastTDId) (hc : c < 150000)
    (hlast : qTD.lastTDofTransaction = true) :
    tdWalkGo qhType lastTDId (fuel + 1) (qTD :: r0 :: rs) false true lt seg
      done stalled elink c =
    (if qhType ≠ kUSBControl ∧ r0.token &&& kUHCI_TD_D = lt then
      tdWalkGo qhType lastTDId fuel (flipToggles lt (r0 :: rs)).1 false false
        (flipToggles lt (r0 :: rs)).2 []
        (done ++ (seg ++ [scavAlignBuffer qTD])) stalled r0.physAddr (c + 1)
    else
      tdWalkGo qhType lastTDId fuel (r0 :: rs) false false lt []
        (done ++ (seg ++ [scavAlignBuffer qTD])) stalled r0.physAddr
        (c + 1)) := by
  simp only [tdWalkGo]
  rw [if_neg hstop, if_neg (not_not_intro hc)]
  simp [hlast]
  split <;> rfl

theorem stepHarvestHalt (qhType : Nat) (lastTDId : Option Nat) (fuel : Nat)
    (qTD r0 : TD) (rs : List TD) (st : Bool) (lt : Nat) (seg done : List TD)
    (stalled : Bool) (elink c : Nat)
    (hstop : ¬ some qTD.tdid = lastTDId) (hc : c < 150000)
    (hlast : qTD.lastTDofTransaction = true) :
    tdWalkGo qhType lastTDId (fuel + 1) (qTD :: r0 :: rs) true st lt seg
      done stalled elink c =
    tdWalkGo qhType lastTDId fuel (r0 :: rs) false false lt []
      (done ++ (seg ++ [scavAlignBuffer qTD])) stalled kUHCI_QH_T
      (c + 1) := by
  simp only [tdWalkGo]
  rw [if_neg hstop, if_neg (not_not_intro hc)]
  simp [hlast]

theorem stepHarvestCleanStalled (qhType : Nat) (lastTDId : Option Nat)
    (fuel : Nat) (qTD r0 : TD) (rs : List TD) (lt : Nat) (seg done : List TD)
    (stalled : Bool) (elink c : Nat)
    (hstop : ¬ some qTD.tdid = lastTDId) (hc : c < 150000)
    (hact : qTD.ctrlStatus &&& kUHCI_TD_ACTIVE = 0)
    (hstall : qTD.ctrlStatus &&& kUHCI_TD_STALLED ≠ 0)
    (hlast : qTD.lastTDofTransaction = true) :
    tdWalkGo qhType lastTDId (fuel + 1) (qTD :: r0 :: rs) false false lt seg
      done stalled elink c =
    tdWalkGo qhType lastTDId fuel (r0 :: rs) false false lt []
      (done ++ (seg ++ [scavAlignBuffer qTD])) true kUHCI_QH_T (c + 1) := by
  simp only [tdWalkGo]
  rw [if_neg hstop, if_neg (not_not_intro hc)]
  simp only [true_and]
  rw [if_neg (show ¬ (qTD.ctrlStatus &&& kUHCI_TD_ACTIVE ≠ 0)
    from not_not_intro hact)]
  simp [hstall, hlast]

theorem stepHarvestCleanShort (qhType : Nat) (lastTDId : Option Nat)
    (fuel : Nat) (qTD r0 : TD) (rs : List TD) (lt : Nat) (seg done : List TD)
    (stalled : Bool) (elink c : Nat)
    (hstop : ¬ some qTD.tdid = lastTDId) (hc : c < 150000)
    (hact : qTD.ctrlStatus &&& kUHCI_TD_ACTIVE = 0)
    (hstall : qTD.ctrlStatus &&& kUHCI_TD_STALLED = 0)
    (hspd : qTD.ctrlStatus &&& kUHCI_TD_SPD ≠ 0)
    (hsh : UHCI_TD_GET_ACTLEN qTD.ctrlStatus < UHCI_TD_GET_MAXLEN qTD.token)
    (hlast : qTD.lastTDofTransaction = true) :
    tdWalkGo qhType lastTDId (fuel + 1) (qTD :: r0 :: rs) false false lt seg
      done stalled elink c =
    (if qhType ≠ kUSBControl ∧
        r0.token &&& kUHCI_TD_D = qTD.token &&& kUHCI_TD_D then
      tdWalkGo qhType lastTDId fuel
        (flipToggles (qTD.token &&& kUHCI_TD_D) (r0 :: rs)).1 false false
        (flipToggles (qTD.token &&& kUHCI_TD_D) (r0 :: rs)).2 []
        (done ++ (seg ++ [scavAlignBuffer qTD])) stalled r0.physAddr (c + 1)
    else
      tdWalkGo qhType lastTDId fuel (r0 :: rs) false false
        (qTD.token &&& kUHCI_TD_D) []
        (done ++ (seg ++ [scavAlignBuffer qTD])) stalled r0.physAddr
        (c + 1)) := by
  simp only [tdWalkGo]
  rw [if_neg hstop, if_neg (not_not_intro hc)]
  simp only [true_and]
  rw [if_neg (show ¬ (qTD.ctrlStatus &&& kUHCI_TD_ACTIVE ≠ 0)
    from not_not_intro hact)]
  simp [hstall, hspd, hsh, hlast]
  split <;> rfl

theorem stepHarvestCleanPlain (qhType : Nat) (lastTDId : Option Nat)
    (fuel : Nat) (qTD r0 : TD) (rs : List TD) (lt : Nat) (seg done : List TD)
    (stalled : Bool) (elink c : Nat)
    (hstop : ¬ some qTD.tdid = lastTDId) (hc : c < 150000)
    (hact : qTD.ctrlStatus &&& kUHCI_TD_ACTIVE = 0)
    (hstall : qTD.ctrlStatus &&& kUHCI_TD_STALLED = 0)
    (hshort : ¬ (qTD.ctrlStatus &&& kUHCI_TD_SPD ≠ 0 ∧
      UHCI_TD_GET_ACTLEN qTD.ctrlStatus < UHCI_TD_GET_MAXLEN qTD.token))
    (hlast : qTD.lastTDofTransaction = true) :
    tdWalkGo qhType lastTDId (fuel + 1) (qTD :: r0 :: rs) false false lt seg
      done stalled elink c =
    tdWalkGo qhType lastTDId fuel (r0 :: rs) false false lt []
      (done ++ (seg ++ [scavAlignBuffer qTD])) stalled elink (c + 1) := by
  simp only [tdWalkGo]
  rw [if_neg hstop, if_neg (not_not_intro hc)]
  simp only [true_and]
  rw [if_neg (show ¬ (qTD.ctrlStatus &&& kUHCI_TD_ACTIVE ≠ 0)
    from not_not_intro hact)]
  simp [hstall, hshort, hlast]
theorem flipToggles_length : ∀ (lt : Nat) (xs : List TD),
    ((flipToggles lt xs).1).length = xs.length := by
  intro lt xs
  induction xs generalizing lt with
  | nil => simp [flipToggles]
  | cons t rest ih => simp [flipToggles, ih]

theorem flipToggles_mem : ∀ (lt : Nat) (xs : List TD) (t : TD),
    t ∈ (flipToggles lt xs).1 →
    ∃ s ∈ xs, t.tdid = s.tdid ∧
      t.lastTDofTransaction = s.lastTDofTransaction := by
  intro lt xs
  induction xs generalizing lt with
  | nil => intro t h; simp [flipToggles] at h
  | cons u rest ih =>
    intro t h
    simp only [flipToggles, List.mem_cons] at h
    rcases h with h | h
    · exact ⟨u, List.mem_cons_self u rest, by simp [h]⟩
    · obtain ⟨s, hs, h1, h2⟩ := ih _ t h
      exact ⟨s, List.mem_cons_of_mem u hs, h1, h2⟩

theorem flipToggles_append : ∀ (lt : Nat) (xs ys : List TD),
    (flipToggles lt (xs ++ ys)).1 =
      (flipToggles lt xs).1 ++ (flipToggles (flipToggles lt xs).2 ys).1 := by
  intro lt xs
  induction xs generalizing lt with
  | nil => intro ys; simp [flipToggles]
  | cons t rest ih => intro ys; simp [flipToggles, ih]

theorem walkPlain (qhType : Nat) (lastTDId : Option Nat) (lt : Nat)
    (done : List TD) (stalled : Bool) (elink : Nat) :
    ∀ (P rest seg : List TD) (c : Nat),
      (∀ t ∈ P, PlainTD lastTDId t) → rest ≠ [] →
      c + P.length + rest.length ≤ 150000 →
      tdWalkGo qhType lastTDId (P.length + rest.length) (P ++ rest) false
        false lt seg done stalled elink c =
      tdWalkGo qhType lastTDId rest.length rest false false lt
        (seg ++ P.map scavAlignBuffer) done stalled elink (c + P.length) := by
  intro P
  induction P with
  | nil => intro rest seg c _ _ _; simp
  | cons t P ih =>
    intro rest seg c hP hrest hcap
    have hmem := hP t (List.mem_cons_self t P)
    obtain ⟨h1, h2, h3, h4, h5⟩ := hmem
    cases hpr : P ++ rest with
    | nil =>
      rcases List.append_eq_nil.mp hpr with ⟨-, h⟩
      exact absurd h hrest
    | cons r0 rs =>
      simp only [List.length_cons, List.cons_append, hpr]
      have hf : P.length + 1 + rest.length = P.length + rest.length + 1 := by
        omega
      rw [hf]
      rw [stepPlain qhType lastTDId (P.length + rest.length) t r0 rs lt seg
        done stalled elink c h1 (by simp at hcap ⊢; omega) h2 h3 h4 h5]
      rw [← hpr]
      rw [ih rest (seg ++ [scavAlignBuffer t]) (c + 1)
        (fun u hu => hP u (List.mem_cons_of_mem t hu)) hrest
        (by simp at hcap ⊢; omega)]
      simp only [List.map_cons, List.append_assoc, List.singleton_append]
      have hc2 : c + 1 + P.length = c + (P.length + 1) := by omega
      rw [hc2]

theorem walkBlind (qhType : Nat) (lastTDId : Option Nat) (th st : Bool)
    (lt : Nat) (done : List TD) (stalled : Bool) (elink : Nat)
    (hd : th = true ∨ st = true) :
    ∀ (B rest seg : List TD) (c : Nat),
      (∀ t ∈ B, BlindTD lastTDId t) → rest ≠ [] →
      c + B.length + rest.length ≤ 150000 →
      tdWalkGo qhType lastTDId (B.length + rest.length) (B ++ rest) th st lt
        seg done stalled elink c =
      tdWalkGo qhType lastTDId rest.length rest th st lt
        (seg ++ B.map scavAlignBuffer) done stalled elink (c + B.length) := by
  intro B
  induction B with
  | nil => intro rest seg c _ _ _; simp
  | cons t B ih =>
    intro rest seg c hB hrest hcap
    obtain ⟨h1, h2⟩ := hB t (List.mem_cons_self t B)
    cases hpr : B ++ rest with
    | nil =>
      rcases List.append_eq_nil.mp hpr with ⟨-, h⟩
      exact absurd h hrest
    | cons r0 rs =>
      simp only [List.length_cons, List.cons_append, hpr]
      have hf : B.length + 1 + rest.length = B.length + rest.length + 1 := by
        omega
      rw [hf]
      rw [stepBlind qhType lastTDId (B.length + rest.length) t r0 rs th st lt
        seg done stalled elink c hd h1 (by simp at hcap ⊢; omega) h2]
      rw [← hpr]
      rw [ih rest (seg ++ [scavAlignBuffer t]) (c + 1)
        (fun u hu => hB u (List.mem_cons_of_mem t hu)) hrest
        (by simp at hcap ⊢; omega)]
      simp only [List.map_cons, List.append_assoc, List.singleton_append]
      have hc2 : c + 1 + B.length = c + (B.length + 1) := by omega
      rw [hc2]

theorem walkPlainEnd (qhType : Nat) (lastTDId : Option Nat) (lt : Nat)
    (done : List TD) (stalled : Bool) (elink : Nat) :
    ∀ (P seg : List TD) (c : Nat),
      (∀ t ∈ P, PlainTD lastTDId t) → c + P.length ≤ 150000 →
      (tdWalkGo qhType lastTDId P.length P false false lt seg done stalled
        elink c).done = done := by
  intro P
  induction P with
  | nil => intro seg c _ _; simp [tdWalkGo]
  | cons t P ih =>
    intro seg c hP hcap
    obtain ⟨h1, h2, h3, h4, h5⟩ := hP t (List.mem_cons_self t P)
    cases P with
    | nil =>
      simp only [List.length_cons, List.length_nil, Nat.zero_add]
      simp only [tdWalkGo]
      rw [if_neg h1, if_neg (not_not_intro (show c < 150000 by
        simp at hcap; omega))]
      simp only [true_and]
      rw [if_neg (show ¬ (t.ctrlStatus &&& kUHCI_TD_ACTIVE ≠ 0)
        from not_not_intro h2)]
      simp [h3, h4, h5]
    | cons u P' =>
      rw [show (t :: u :: P').length = (u :: P').length + 1 from rfl]
      rw [stepPlain qhType lastTDId (u :: P').length t u P' lt seg done
        stalled elink c h1 (by simp at hcap ⊢; omega) h2 h3 h4 h5]
      exact ih (seg ++ [scavAlignBuffer t]) (c + 1)
        (fun v hv => hP v (List.mem_cons_of_mem t hv))
        (by simp at hcap ⊢; omega)
theorem walkScavenged (qhType : Nat) (lastTDId : Option Nat) (elink : Nat)
    (tds : List TD) (hs : Scavenged lastTDId tds)
    (hlen : tds.length ≤ 150000) :
    (tdWalk qhType lastTDId elink tds).done = [] := by
  obtain ⟨P, Q, rfl, hP, hQ⟩ := hs
  simp only [tdWalk, List.length_append]
  rcases hQ with hQ | ⟨d, Q2, hQ, hd⟩ | ⟨a, Q2, hQ, ha1, ha2⟩ |
      ⟨tr, B, dd, hQ, htr, hB, hdd⟩
  · subst hQ
    simp only [List.length_nil, Nat.add_zero, List.append_nil]
    exact walkPlainEnd qhType lastTDId 0 [] false elink P [] 0 hP
      (by simp [List.length_append] at hlen; omega)
  · subst hQ
    rw [walkPlain qhType lastTDId 0 [] false elink P (d :: Q2) [] 0 hP
      (by simp) (by simp [List.length_append] at hlen ⊢; omega)]
    rw [show (d :: Q2).length = Q2.length + 1 from rfl]
    rw [stepStop qhType lastTDId Q2.length d Q2 false false 0
      ([] ++ P.map scavAlignBuffer) [] false elink (0 + P.length) hd]
  · subst hQ
    rw [walkPlain qhType lastTDId 0 [] false elink P (a :: Q2) [] 0 hP
      (by simp) (by simp [List.length_append] at hlen ⊢; omega)]
    rw [show (a :: Q2).length = Q2.length + 1 from rfl]
    rw [stepActive qhType lastTDId Q2.length a Q2 0
      ([] ++ P.map scavAlignBuffer) [] false elink (0 + P.length) ha1
      (by simp [List.length_append] at hlen ⊢; omega) ha2]
  · subst hQ
    have hlen2 : P.length + (B.length + 2) ≤ 150000 := by
      simp [List.length_append] at hlen; omega
    rw [walkPlain qhType lastTDId 0 [] false elink P (tr :: (B ++ [dd]))
      [] 0 hP (by simp) (by simp [List.length_append]; omega)]
    obtain ⟨ht1, ht2, ht3, ht4⟩ := htr
    cases B with
    | nil =>
      simp only [List.nil_append]
      rw [show (tr :: [dd]).length = 1 + 1 from rfl]
      by_cases hst : tr.ctrlStatus &&& kUHCI_TD_STALLED = 0
      · have hsh : tr.ctrlStatus &&& kUHCI_TD_SPD ≠ 0 ∧
            UHCI_TD_GET_ACTLEN tr.ctrlStatus
              < UHCI_TD_GET_MAXLEN tr.token := by
          rcases ht4 with hh | h
          · exact absurd hst hh
          · exact h
        rw [stepTrigShort qhType lastTDId 1 tr dd [] 0
          (P.map scavAlignBuffer) [] false elink (0 + P.length) ht1
          (by omega) ht2 hst hsh.1 hsh.2 ht3]
        rw [show (1 : Nat) = 0 + 1 from rfl]
        rw [stepStop qhType lastTDId 0 dd [] false true
          (tr.token &&& kUHCI_TD_D)
          (P.map scavAlignBuffer ++ [scavAlignBuffer tr]) [] false
          elink (0 + P.length + 1) hdd]
      · rw [stepTrigHalt qhType lastTDId 1 tr dd [] 0
          (P.map scavAlignBuffer) [] false elink (0 + P.length) ht1
          (by omega) ht2 hst ht3]
        rw [show (1 : Nat) = 0 + 1 from rfl]
        rw [stepStop qhType lastTDId 0 dd [] true false 0
          (P.map scavAlignBuffer ++ [scavAlignBuffer tr]) [] true
          elink (0 + P.length + 1) hdd]
    | cons b B' =>
      simp only [List.cons_append]
      rw [show (tr :: b :: (B' ++ [dd])).length
        = (b :: (B' ++ [dd])).length + 1 from rfl]
      by_cases hst : tr.ctrlStatus &&& kUHCI_TD_STALLED = 0
      · have hsh : tr.ctrlStatus &&& kUHCI_TD_SPD ≠ 0 ∧
            UHCI_TD_GET_ACTLEN tr.ctrlStatus
              < UHCI_TD_GET_MAXLEN tr.token := by
          rcases ht4 with hh | h
          · exact absurd hst hh
          · exact h
        rw [stepTrigShort qhType lastTDId (b :: (B' ++ [dd])).length tr b
          (B' ++ [dd]) 0 ([] ++ P.map scavAlignBuffer) [] false elink
          (0 + P.length) ht1 (by omega) ht2 hst hsh.1 hsh.2 ht3]
        rw [show (b :: (B' ++ [dd])).length
          = (b :: B').length + [dd].length by simp]
        rw [show (b : TD) :: (B' ++ [dd]) = (b :: B') ++ [dd] from rfl]
        rw [walkBlind qhType lastTDId false true (tr.token &&& kUHCI_TD_D)
          [] false elink (Or.inr rfl) (b :: B') [dd]
          ([] ++ P.map scavAlignBuffer ++ [scavAlignBuffer tr])
          (0 + P.length + 1) hB (by simp)
          (by simp [List.length_append] at hlen2 ⊢; omega)]
        rw [show ([dd] : List TD).length = 0 + 1 from rfl]
        rw [stepStop]
        exact hdd
      · rw [stepTrigHalt qhType lastTDId (b :: (B' ++ [dd])).length tr b
          (B' ++ [dd]) 0 ([] ++ P.map scavAlignBuffer) [] false elink
          (0 + P.length) ht1 (by omega) ht2 hst ht3]
        rw [show (b :: (B' ++ [dd])).length
          = (b :: B').length + [dd].length by simp]
        rw [show (b : TD) :: (B' ++ [dd]) = (b :: B') ++ [dd] from rfl]
        rw [walkBlind qhType lastTDId true false 0 [] true elink
          (Or.inl rfl) (b :: B') [dd]
          ([] ++ P.map scavAlignBuffer ++ [scavAlignBuffer tr])
          (0 + P.length + 1) hB (by simp)
          (by simp [List.length_append] at hlen2 ⊢; omega)]
        rw [show ([dd] : List TD).length = 0 + 1 from rfl]
        rw [stepStop]
        exact hdd
theorem flip_single (lt : Nat) (d : TD) :
    ∃ d2, (flipToggles lt [d]).1 = [d2] ∧ d2.tdid = d.tdid ∧
      d2.lastTDofTransaction = d.lastTDofTransaction := by
  refine ⟨{ d with token := (d.token &&& ((mod32 - 1) ^^^ kUHCI_TD_D)) |||
    (if lt ≠ 0 then 0 else kUHCI_TD_D) }, ?_, rfl, rfl⟩
  simp [flipToggles]

theorem flip_wf (lastTDId : Option Nat) (lt : Nat) (body : List TD) (dd : TD)
    (hdd : some dd.tdid = lastTDId)
    (hbody : ∀ t ∈ body, some t.tdid ≠ lastTDId) :
    ∃ body2 dd2, (flipToggles lt (body ++ [dd])).1 = body2 ++ [dd2] ∧
      some dd2.tdid = lastTDId ∧ (∀ t ∈ body2, some t.tdid ≠ lastTDId) := by
  rw [flipToggles_append]
  obtain ⟨d2, hd2, hid, -⟩ := flip_single (flipToggles lt body).2 dd
  refine ⟨(flipToggles lt body).1, d2, by rw [hd2], by rw [hid]; exact hdd,
    ?_⟩
  intro t ht
  obtain ⟨s, hs, h1, -⟩ := flipToggles_mem lt body t ht
  rw [h1]
  exact hbody s hs
theorem plain_append (lastTDId : Option Nat) (Ps : List TD) (x : TD)
    (hPs : ∀ t ∈ Ps, PlainTD lastTDId t) (hx : PlainTD lastTDId x) :
    ∀ t ∈ Ps ++ [x], PlainTD lastTDId t := by
  intro t ht
  rcases List.mem_append.mp ht with h | h
  · exact hPs t h
  · simp at h; subst h; exact hx

theorem blind_append (lastTDId : Option Nat) (Bs : List TD) (x : TD)
    (hBs : ∀ t ∈ Bs, BlindTD lastTDId t) (hx : BlindTD lastTDId x) :
    ∀ t ∈ Bs ++ [x], BlindTD lastTDId t := by
  intro t ht
  rcases List.mem_append.mp ht with h | h
  · exact hBs t h
  · simp at h; subst h; exact hx

theorem scavengedShape (qhType : Nat) (lastTDId : Option Nat) :
    ∀ (fuel : Nat) (tds : List TD) (th st : Bool) (lt : Nat)
      (seg done : List TD) (stalled : Bool) (elink c : Nat),
      fuel = tds.length →
      (∃ body dd, tds = body ++ [dd] ∧ some dd.tdid = lastTDId ∧
        ∀ t ∈ body, some t.tdid ≠ lastTDId) →
      c + tds.length ≤ 150000 →
      ((th = false ∧ st = false ∧ ∀ t ∈ seg, PlainTD lastTDId t) ∨
       ((th = true ∨ st = true) ∧
        ∃ Ps trs Bs, seg = Ps ++ trs :: Bs ∧
          (∀ t ∈ Ps, PlainTD lastTDId t) ∧ TriggerTD lastTDId trs ∧
          ∀ t ∈ Bs, BlindTD lastTDId t)) →
      Scavenged lastTDId
        (tdWalkGo qhType lastTDId fuel tds th st lt seg done stalled
          elink c).chain ∧
      (tdWalkGo qhType lastTDId fuel tds th st lt seg done stalled elink
          c).chain.length ≤ seg.length + tds.length := by
  intro fuel
  induction fuel with
  | zero =>
    intro tds th st lt seg done stalled elink c hfuel hwf hcap hseg
    obtain ⟨body, dd, rfl, -, -⟩ := hwf
    simp at hfuel
  | succ n IH =>
    intro tds th st lt seg done stalled elink c hfuel hwf hcap hseg
    obtain ⟨body, dd, rfl, hdd, hbody⟩ := hwf
    cases body with
    | nil =>
      simp only [List.nil_append] at hfuel hcap ⊢
      rw [stepStop qhType lastTDId n dd [] th st lt seg done stalled elink
        c hdd]
      constructor
      · rcases hseg with ⟨-, -, hsegP⟩ |
          ⟨-, Ps, trs, Bs, hsegeq, hPs, htrs, hBs⟩
        · exact ⟨seg, [dd], rfl, hsegP, Or.inr (Or.inl ⟨dd, [], rfl, hdd⟩)⟩
        · refine ⟨Ps, trs :: (Bs ++ [dd]), ?_, hPs,
            Or.inr (Or.inr (Or.inr ⟨trs, Bs, dd, rfl, htrs, hBs, hdd⟩))⟩
          rw [hsegeq]; simp
      · simp
    | cons b bs =>
      simp only [List.cons_append] at hfuel hcap ⊢
      have hstop : ¬ some b.tdid = lastTDId :=
        hbody b (List.mem_cons_self b bs)
      have hbody' : ∀ t ∈ bs, some t.tdid ≠ lastTDId :=
        fun t ht => hbody t (List.mem_cons_of_mem b ht)
      have hc : c < 150000 := by
        simp only [List.length_cons, List.length_append,
          List.length_nil] at hcap
        omega
      have hne : bs ++ [dd] ≠ [] := by simp
      obtain ⟨r0, rs, hr⟩ := List.exists_cons_of_ne_nil hne
      have hwfrest : ∃ body2 dd2, r0 :: rs = body2 ++ [dd2] ∧
          some dd2.tdid = lastTDId ∧ ∀ t ∈ body2, some t.tdid ≠ lastTDId :=
        ⟨bs, dd, hr.symm, hdd, hbody'⟩
      have hcap' : (c + 1) + (r0 :: rs).length ≤ 150000 := by
        rw [← hr]
        simp only [List.length_cons, List.length_append,
          List.length_nil] at hcap ⊢
        omega
      have hn' : n = (r0 :: rs).length := by
        rw [← hr]
        simp only [List.length_cons, List.length_append,
          List.length_nil] at hfuel ⊢
        omega
      rw [hr]
      rcases hseg with ⟨hth, hst0, hsegP⟩ |
        ⟨hdirty, Ps, trs, Bs, hsegeq, hPs, htrs, hBs⟩
      · subst hth; subst hst0
        by_cases hact : b.ctrlStatus &&& kUHCI_TD_ACTIVE ≠ 0
        · rw [stepActive qhType lastTDId n b (r0 :: rs) lt seg done stalled
            elink c hstop hc hact]
          refine ⟨⟨seg, b :: r0 :: rs, rfl, hsegP,
            Or.inr (Or.inr (Or.inl ⟨b, r0 :: rs, rfl, hstop, hact⟩))⟩, ?_⟩
          simp only [List.length_append, List.length_cons]
          omega
        · have hact0 : b.ctrlStatus &&& kUHCI_TD_ACTIVE = 0 :=
            not_not.mp hact
          by_cases hlast : b.lastTDofTransaction = true
          · by_cases hstall : b.ctrlStatus &&& kUHCI_TD_STALLED = 0
            · by_cases hshort : b.ctrlStatus &&& kUHCI_TD_SPD ≠ 0 ∧
                  UHCI_TD_GET_ACTLEN b.ctrlStatus
                    < UHCI_TD_GET_MAXLEN b.token
              · rw [stepHarvestCleanShort qhType lastTDId n b r0 rs lt seg
                  done stalled elink c hstop hc hact0 hstall hshort.1
                  hshort.2 hlast]
                by_cases hflip : qhType ≠ kUSBControl ∧
                    r0.token &&& kUHCI_TD_D = b.token &&& kUHCI_TD_D
                · rw [if_pos hflip]
                  have hwfflip := flip_wf lastTDId (b.token &&& kUHCI_TD_D)
                    bs dd hdd hbody'
                  rw [hr] at hwfflip
                  have hlenflip := flipToggles_length
                    (b.token &&& kUHCI_TD_D) (r0 :: rs)
                  obtain ⟨hA, hB⟩ := IH
                    (flipToggles (b.token &&& kUHCI_TD_D) (r0 :: rs)).1
                    false false
                    (flipToggles (b.token &&& kUHCI_TD_D) (r0 :: rs)).2 []
                    (done ++ (seg ++ [scavAlignBuffer b])) stalled
                    r0.physAddr (c + 1)
                    (by rw [hlenflip]; exact hn') hwfflip
                    (by rw [hlenflip]; exact hcap')
                    (Or.inl ⟨rfl, rfl, by intro t ht; simp at ht⟩)
                  refine ⟨hA, ?_⟩
                  rw [hlenflip] at hB
                  simp only [List.length_nil, List.length_cons] at hB ⊢
                  omega
                · rw [if_neg hflip]
                  obtain ⟨hA, hB⟩ := IH (r0 :: rs) false false
                    (b.token &&& kUHCI_TD_D) []
                    (done ++ (seg ++ [scavAlignBuffer b])) stalled
                    r0.physAddr (c + 1) hn' hwfrest hcap'
                    (Or.inl ⟨rfl, rfl, by intro t ht; simp at ht⟩)
                  refine ⟨hA, ?_⟩
                  simp only [List.length_nil, List.length_cons] at hB ⊢
                  omega
              · rw [stepHarvestCleanPlain qhType lastTDId n b r0 rs lt seg
                  done stalled elink c hstop hc hact0 hstall hshort hlast]
                obtain ⟨hA, hB⟩ := IH (r0 :: rs) false false lt []
                  (done ++ (seg ++ [scavAlignBuffer b])) stalled elink
                  (c + 1) hn' hwfrest hcap'
                  (Or.inl ⟨rfl, rfl, by intro t ht; simp at ht⟩)
                refine ⟨hA, ?_⟩
                simp only [List.length_nil, List.length_cons] at hB ⊢
                omega
            · rw [stepHarvestCleanStalled qhType lastTDId n b r0 rs lt seg
                done stalled elink c hstop hc hact0 hstall hlast]
              obtain ⟨hA, hB⟩ := IH (r0 :: rs) false false lt []
                (done ++ (seg ++ [scavAlignBuffer b])) true kUHCI_QH_T
                (c + 1) hn' hwfrest hcap'
                (Or.inl ⟨rfl, rfl, by intro t ht; simp at ht⟩)
              refine ⟨hA, ?_⟩
              simp only [List.length_nil, List.length_cons] at hB ⊢
              omega
          · have hlastF : b.lastTDofTransaction = false :=
              Bool.eq_false_iff.mpr hlast
            by_cases hstall : b.ctrlStatus &&& kUHCI_TD_STALLED = 0
            · by_cases hshort : b.ctrlStatus &&& kUHCI_TD_SPD ≠ 0 ∧
                  UHCI_TD_GET_ACTLEN b.ctrlStatus
                    < UHCI_TD_GET_MAXLEN b.token
              · rw [stepTrigShort qhType lastTDId n b r0 rs lt seg done
                  stalled elink c hstop hc hact0 hstall hshort.1 hshort.2
                  hlastF]
                obtain ⟨hA, hB⟩ := IH (r0 :: rs) false true
                  (b.token &&& kUHCI_TD_D) (seg ++ [scavAlignBuffer b])
                  done stalled elink (c + 1) hn' hwfrest hcap'
                  (Or.inr ⟨Or.inr rfl, seg, scavAlignBuffer b, [], by simp,
                    hsegP, scav_trigger lastTDId b
                      ⟨hstop, hact0, hlastF, Or.inr hshort⟩,
                    by intro t ht; simp at ht⟩)
                refine ⟨hA, ?_⟩
                simp only [List.length_append, List.length_cons,
                  List.length_nil] at hB ⊢
                omega
              · rw [stepPlain qhType lastTDId n b r0 rs lt seg done stalled
                  elink c hstop hc hact0 hstall hshort hlastF]
                obtain ⟨hA, hB⟩ := IH (r0 :: rs) false false lt
                  (seg ++ [scavAlignBuffer b]) done stalled elink (c + 1)
                  hn' hwfrest hcap'
                  (Or.inl ⟨rfl, rfl, plain_append lastTDId seg
                    (scavAlignBuffer b) hsegP (scav_plain lastTDId b
                      ⟨hstop, hact0, hstall, hshort, hlastF⟩)⟩)
                refine ⟨hA, ?_⟩
                simp only [List.length_append, List.length_cons,
                  List.length_nil] at hB ⊢
                omega
            · rw [stepTrigHalt qhType lastTDId n b r0 rs lt seg done
                stalled elink c hstop hc hact0 hstall hlastF]
              obtain ⟨hA, hB⟩ := IH (r0 :: rs) true false lt
                (seg ++ [scavAlignBuffer b]) done true elink (c + 1) hn'
                hwfrest hcap'
                (Or.inr ⟨Or.inl rfl, seg, scavAlignBuffer b, [], by simp,
                  hsegP, scav_trigger lastTDId b
                    ⟨hstop, hact0, hlastF, Or.inl hstall⟩,
                  by intro t ht; simp at ht⟩)
              refine ⟨hA, ?_⟩
              simp only [List.length_append, List.length_cons,
                List.length_nil] at hB ⊢
              omega
      · by_cases hthT : th = true
        · subst hthT
          by_cases hlast : b.lastTDofTransaction = true
          · rw [stepHarvestHalt qhType lastTDId n b r0 rs st lt seg done
              stalled elink c hstop hc hlast]
            obtain ⟨hA, hB⟩ := IH (r0 :: rs) false false lt []
              (done ++ (seg ++ [scavAlignBuffer b])) stalled kUHCI_QH_T
              (c + 1) hn' hwfrest hcap'
              (Or.inl ⟨rfl, rfl, by intro t ht; simp at ht⟩)
            refine ⟨hA, ?_⟩
            simp only [List.length_nil, List.length_cons] at hB ⊢
            omega
          · have hlastF : b.lastTDofTransaction = false :=
              Bool.eq_false_iff.mpr hlast
            rw [stepBlind qhType lastTDId n b r0 rs true st lt seg done
              stalled elink c (Or.inl rfl) hstop hc hlastF]
            obtain ⟨hA, hB⟩ := IH (r0 :: rs) true st lt
              (seg ++ [scavAlignBuffer b]) done stalled elink (c + 1) hn'
              hwfrest hcap'
              (Or.inr ⟨Or.inl rfl, Ps, trs, Bs ++ [scavAlignBuffer b],
                by rw [hsegeq]; simp, hPs, htrs,
                blind_append lastTDId Bs (scavAlignBuffer b) hBs
                  (scav_blind lastTDId b ⟨hstop, hlastF⟩)⟩)
            refine ⟨hA, ?_⟩
            simp only [List.length_append, List.length_cons,
              List.length_nil] at hB ⊢
            omega
        · have hthF : th = false := by
            cases th with
            | false => rfl
            | true => exact absurd rfl hthT
          have hstT : st = true := hdirty.resolve_left hthT
          subst hthF; subst hstT
          by_cases hlast : b.lastTDofTransaction = true
          · rw [stepHarvestShort qhType lastTDId n b r0 rs lt seg done
              stalled elink c hstop hc hlast]
            by_cases hflip : qhType ≠ kUSBControl ∧
                r0.token &&& kUHCI_TD_D = lt
            · rw [if_pos hflip]
              have hwfflip := flip_wf lastTDId lt bs dd hdd hbody'
              rw [hr] at hwfflip
              have hlenflip := flipToggles_length lt (r0 :: rs)
              obtain ⟨hA, hB⟩ := IH (flipToggles lt (r0 :: rs)).1 false
                false (flipToggles lt (r0 :: rs)).2 []
                (done ++ (seg ++ [scavAlignBuffer b])) stalled r0.physAddr
                (c + 1) (by rw [hlenflip]; exact hn') hwfflip
                (by rw [hlenflip]; exact hcap')
                (Or.inl ⟨rfl, rfl, by intro t ht; simp at ht⟩)
              refine ⟨hA, ?_⟩
              rw [hlenflip] at hB
              simp only [List.length_nil, List.length_cons] at hB ⊢
              omega
            · rw [if_neg hflip]
              obtain ⟨hA, hB⟩ := IH (r0 :: rs) false false lt []
                (done ++ (seg ++ [scavAlignBuffer b])) stalled r0.physAddr
                (c + 1) hn' hwfrest hcap'
                (Or.inl ⟨rfl, rfl, by intro t ht; simp at ht⟩)
              refine ⟨hA, ?_⟩
              simp only [List.length_nil, List.length_cons] at hB ⊢
              omega
          · have hlastF : b.lastTDofTransaction = false :=
              Bool.eq_false_iff.mpr hlast
            rw [stepBlind qhType lastTDId n b r0 rs false true lt seg done
              stalled elink c (Or.inr rfl) hstop hc hlastF]
            obtain ⟨hA, hB⟩ := IH (r0 :: rs) false true lt
              (seg ++ [scavAlignBuffer b]) done stalled elink (c + 1) hn'
              hwfrest hcap'
              (Or.inr ⟨Or.inr rfl, Ps, trs, Bs ++ [scavAlignBuffer b],
                by rw [hsegeq]; simp, hPs, htrs,
                blind_append lastTDId Bs (scavAlignBuffer b) hBs
                  (scav_blind lastTDId b ⟨hstop, hlastF⟩)⟩)
            refine ⟨hA, ?_⟩
            simp only [List.length_append, List.length_cons,
              List.length_nil] at hB ⊢
            omega
theorem wfqh_decomp (qh : ScavQH) (h : WFQH qh) :
    ∃ body dd, qh.chain = body ++ [dd] ∧ some dd.tdid = qh.lastTDId ∧
      ∀ t ∈ body, some t.tdid ≠ qh.lastTDId := by
  obtain ⟨h1, h2, h3⟩ := h
  cases hc : qh.chain.getLast? with
  | none => rw [hc] at h1; simp at h1
  | some dd =>
    rw [hc] at h1
    simp only [Option.map_some', Option.some.injEq] at h1
    have hne : qh.chain ≠ [] := by
      intro he; rw [he] at hc; simp at hc
    have hgl := List.getLast?_eq_getLast qh.chain hne
    have hdd : dd = qh.chain.getLast hne := by
      rw [hc] at hgl
      exact Option.some.inj hgl
    refine ⟨qh.chain.dropLast, dd, ?_, h1, fun t ht => h2 t ht⟩
    rw [hdd]
    exact (List.dropLast_append_getLast hne).symm

theorem scavengeOneQH_idem (qh : ScavQH) (h : WFQH qh) :
    (scavengeOneQH (scavengeOneQH qh).1).2 = [] := by
  by_cases hrun : qh.qtype ≠ kQHTypeDummy ∧ qh.stalled = false
  · obtain ⟨body, dd, hchain, hdd, hbody⟩ := wfqh_decomp qh h
    have hlen : qh.chain.length ≤ 150000 := h.2.2
    have hshape := scavengedShape qh.qtype qh.lastTDId qh.chain.length
      qh.chain false false 0 [] [] false qh.elink 0 rfl
      ⟨body, dd, hchain, hdd, hbody⟩ (by omega)
      (Or.inl ⟨rfl, rfl, by intro t ht; simp at ht⟩)
    have hshape1 : Scavenged qh.lastTDId
        (tdWalk qh.qtype qh.lastTDId qh.elink qh.chain).chain := hshape.1
    have hshape2 : (tdWalk qh.qtype qh.lastTDId qh.elink
        qh.chain).chain.length ≤ 150000 := by
      have := hshape.2
      simp only [List.length_nil] at this
      exact le_trans this (by omega)
    simp only [scavengeOneQH, if_pos hrun]
    by_cases hstall :
        (tdWalk qh.qtype qh.lastTDId qh.elink qh.chain).stalled = true
    · rw [if_neg (show ¬ (qh.qtype ≠ kQHTypeDummy ∧
        (tdWalk qh.qtype qh.lastTDId qh.elink qh.chain).stalled = false)
        from fun hh => by rw [hstall] at hh; exact Bool.noConfusion hh.2)]
    · have hstallF :
          (tdWalk qh.qtype qh.lastTDId qh.elink qh.chain).stalled
            = false := by
        cases hr2 : (tdWalk qh.qtype qh.lastTDId qh.elink qh.chain).stalled
        · rfl
        · exact absurd hr2 hstall
      rw [if_pos (show qh.qtype ≠ kQHTypeDummy ∧
        (tdWalk qh.qtype qh.lastTDId qh.elink qh.chain).stalled = false
        from ⟨hrun.1, hstallF⟩)]
      exact walkScavenged qh.qtype qh.lastTDId
        (tdWalk qh.qtype qh.lastTDId qh.elink qh.chain).elink
        (tdWalk qh.qtype qh.lastTDId qh.elink qh.chain).chain hshape1
        hshape2
  · simp only [scavengeOneQH, if_neg hrun]

theorem scavengeQHList_idem :
    ∀ (qhs : List ScavQH) (c : Nat), (∀ qh ∈ qhs, WFQH qh) →
      (scavengeQHList (scavengeQHList qhs c).1 c).2 = [] := by
  intro qhs
  induction qhs with
  | nil => intro c _; simp [scavengeQHList]
  | cons qh rest ih =>
    intro c hwf
    by_cases hc : c < 150000
    · simp only [scavengeQHList, if_pos hc]
      rw [scavengeOneQH_idem qh (hwf qh (List.mem_cons_self qh rest))]
      rw [ih (c + 1) (fun q hq => hwf q (List.mem_cons_of_mem qh hq))]
      rfl
    · simp only [scavengeQHList, if_neg hc]
theorem reverseLoop_consumer (P : Nat) :
    ∀ (l : List ITD) (cons : Nat) (acc : List ITD) (opq orl : Nat → Int),
      cons < P → P ≤ cons + l.length →
      (reverseLoop P l cons acc opq orl).2.1 = P := by
  intro l
  induction l with
  | nil => intro cons acc opq orl h1 h2; simp at h2; omega
  | cons d rest ih =>
    intro cons acc opq orl h1 h2
    simp only [reverseLoop]
    by_cases he : P = cons + 1
    · rw [if_pos he]
      show cons + 1 = P
      omega
    · rw [if_neg he]
      exact ih (cons + 1) _ _ _ (by omega) (by simp at h2 ⊢; omega)

theorem isoch_idem (s : IsochState)
    (h1 : s.consumerCount ≤ s.producerCount)
    (h2 : s.producerCount ≤ s.consumerCount + s.doneQueue.length) :
    (scavengeIsochTransactions (scavengeIsochTransactions s).1).2 = [] := by
  by_cases heq : s.consumerCount = s.producerCount
  · have hskip : scavengeIsochTransactions s = (s, []) := by
      simp only [scavengeIsochTransactions]
      rw [if_neg (show ¬ (s.doneQueue ≠ [] ∧
        s.consumerCount ≠ s.producerCount) from fun hh => hh.2 heq)]
    rw [hskip]
    rw [hskip]
  · have hlt : s.consumerCount < s.producerCount := lt_of_le_of_ne h1 heq
    have hne : s.doneQueue ≠ [] := by
      intro he
      rw [he] at h2
      simp at h2
      omega
    have hcons := reverseLoop_consumer s.producerCount s.doneQueue
      s.consumerCount [] s.onProducerQ s.onReversedList hlt h2
    have hfirst : scavengeIsochTransactions s =
        ({ s with
            consumerCount := (reverseLoop s.producerCount s.doneQueue
              s.consumerCount [] s.onProducerQ s.onReversedList).2.1,
            onProducerQ := (reverseLoop s.producerCount s.doneQueue
              s.consumerCount [] s.onProducerQ s.onReversedList).2.2.1,
            onReversedList := (drainLoop (reverseLoop s.producerCount
              s.doneQueue s.consumerCount [] s.onProducerQ
              s.onReversedList).1 (reverseLoop s.producerCount s.doneQueue
              s.consumerCount [] s.onProducerQ s.onReversedList).2.2.2
              []).1 },
          (drainLoop (reverseLoop s.producerCount s.doneQueue
            s.consumerCount [] s.onProducerQ s.onReversedList).1
            (reverseLoop s.producerCount s.doneQueue s.consumerCount []
              s.onProducerQ s.onReversedList).2.2.2 []).2) := by
      simp only [scavengeIsochTransactions]
      rw [if_pos ⟨hne, heq⟩]
    rw [hfirst]
    simp only [scavengeIsochTransactions]
    rw [if_neg (show ¬ (s.doneQueue ≠ [] ∧
      (reverseLoop s.producerCount s.doneQueue s.consumerCount []
        s.onProducerQ s.onReversedList).2.1 ≠ s.producerCount)
      from fun hh => hh.2 hcons)]
/-- C5 (amended): a TD with the halted bit set that is the first abnormal
TD of its transaction (clean per-transaction flags: no earlier halted TD or
short packet in the transaction) sets the queue head's stalled flag, and on
reaching the transaction's last TD the hardware element link is set to the
terminate sentinel, with the chain advanced past the harvested transaction;
and every scavenger pass skips a queue head whose stalled flag is set,
returning it unchanged without traversing its chain. -/
theorem scavenger_halted (qhType elink0 : Nat) (pre mid : List TD)
    (tHalt tLast d : TD)
    (hpre : ∀ t ∈ pre, PlainTD (some d.tdid) t)
    (hh1 : tHalt.ctrlStatus &&& kUHCI_TD_ACTIVE = 0)
    (hh2 : tHalt.ctrlStatus &&& kUHCI_TD_STALLED ≠ 0)
    (hh3 : tHalt.lastTDofTransaction = false)
    (hh4 : tHalt.tdid ≠ d.tdid)
    (hmid : ∀ t ∈ mid, t.lastTDofTransaction = false ∧ t.tdid ≠ d.tdid)
    (hl1 : tLast.lastTDofTransaction = true)
    (hl2 : tLast.tdid ≠ d.tdid)
    (hlen : pre.length + mid.length + 3 ≤ 150000) :
    ((tdWalk qhType (some d.tdid) elink0
        (pre ++ tHalt :: (mid ++ [tLast, d]))).stalled = true ∧
     (tdWalk qhType (some d.tdid) elink0
        (pre ++ tHalt :: (mid ++ [tLast, d]))).elink = kUHCI_QH_T ∧
     (tdWalk qhType (some d.tdid) elink0
        (pre ++ tHalt :: (mid ++ [tLast, d]))).chain = [d]) ∧
    (∀ qh : ScavQH, qh.stalled = true → scavengeOneQH qh = (qh, [])) := by
  constructor
  · simp only [tdWalk, List.length_append]
    rw [walkPlain qhType (some d.tdid) 0 [] false elink0 pre
      (tHalt :: (mid ++ [tLast, d])) [] 0 hpre (by simp)
      (by simp only [List.length_cons, List.length_append,
        List.length_nil]; omega)]
    rw [show (tHalt :: (mid ++ [tLast, d])).length
      = (mid ++ [tLast, d]).length + 1 from rfl]
    have hne : mid ++ [tLast, d] ≠ [] := by simp
    obtain ⟨r0, rs, hr⟩ := List.exists_cons_of_ne_nil hne
    rw [hr]
    rw [stepTrigHalt qhType (some d.tdid) (r0 :: rs).length tHalt r0 rs 0
      ([] ++ pre.map scavAlignBuffer) [] false elink0 (0 + pre.length)
      (fun h => hh4 (Option.some.inj h)) (by omega) hh1 hh2 hh3]
    rw [← hr]
    rw [show (mid ++ [tLast, d]).length = mid.length + [tLast, d].length
      from by simp]
    rw [walkBlind qhType (some d.tdid) true false 0 [] true elink0
      (Or.inl rfl) mid [tLast, d]
      ([] ++ pre.map scavAlignBuffer ++ [scavAlignBuffer tHalt])
      (0 + pre.length + 1)
      (fun t ht => ⟨fun hco => (hmid t ht).2 (Option.some.inj hco),
        (hmid t ht).1⟩)
      (by simp)
      (by simp only [List.length_cons, List.length_nil]; omega)]
    rw [show ([tLast, d] : List TD).length = 1 + 1 from rfl]
    rw [stepHarvestHalt qhType (some d.tdid) 1 tLast d [] false 0
      ([] ++ pre.map scavAlignBuffer ++ [scavAlignBuffer tHalt] ++
        mid.map scavAlignBuffer) [] true elink0
      (0 + pre.length + 1 + mid.length)
      (fun h => hl2 (Option.some.inj h)) (by omega) hl1]
    rw [show (1 : Nat) = 0 + 1 from rfl]
    rw [stepStop qhType (some d.tdid) 0 d [] false false 0 []
      ([] ++ ([] ++ pre.map scavAlignBuffer ++ [scavAlignBuffer tHalt] ++
        mid.map scavAlignBuffer ++ [scavAlignBuffer tLast])) true
      kUHCI_QH_T (0 + pre.length + 1 + mid.length + 1) rfl]
    exact ⟨rfl, rfl, rfl⟩
  · intro qh hq
    simp only [scavengeOneQH]
    rw [if_neg (show ¬ (qh.qtype ≠ kQHTypeDummy ∧ qh.stalled = false)
      from fun hh => by rw [hq] at hh; exact Bool.noConfusion hh.2)]
/-- C1 (amended): for a chain holding a short TD at position `i` (inactive,
short-packet-detect set, actual length below max length) before the TD
flagged last-of-transaction at position `k`, the scavenger reports no
completion for TDs after `i` until it reaches the declared last TD — the
whole transaction is harvested in one batch at `TD[k]` — and the queue head
does not stall.  However, both repairs the claim places at `TD[i+1]` happen
at `TD[k+1]`: the hardware element link is set to `TD[k+1]`'s physical
address, and the data-toggle rewrite applies to the TDs from `TD[k+1]`
onward, when and only when `TD[k+1]`'s toggle equals the short TD's ending
toggle; the toggles of `TD[i+1..k]` are returned unchanged. -/
theorem scavenger_short_packet (qhType elink0 : Nat) (pre mid : List TD)
    (tShort tLast d : TD)
    (hpre : ∀ t ∈ pre, PlainTD (some d.tdid) t)
    (hs1 : tShort.ctrlStatus &&& kUHCI_TD_ACTIVE = 0)
    (hs2 : tShort.ctrlStatus &&& kUHCI_TD_STALLED = 0)
    (hs3 : tShort.ctrlStatus &&& kUHCI_TD_SPD ≠ 0)
    (hs4 : UHCI_TD_GET_ACTLEN tShort.ctrlStatus
      < UHCI_TD_GET_MAXLEN tShort.token)
    (hs5 : tShort.lastTDofTransaction = false)
    (hs6 : tShort.tdid ≠ d.tdid)
    (hmid : ∀ t ∈ mid, t.lastTDofTransaction = false ∧ t.tdid ≠ d.tdid)
    (hl1 : tLast.lastTDofTransaction = true)
    (hl2 : tLast.tdid ≠ d.tdid)
    (hlen : pre.length + mid.length + 3 ≤ 150000) :
    (tdWalk qhType (some d.tdid) elink0
        (pre ++ tShort :: (mid ++ [tLast, d]))).done =
      (pre ++ tShort :: (mid ++ [tLast])).map scavAlignBuffer ∧
    (tdWalk qhType (some d.tdid) elink0
        (pre ++ tShort :: (mid ++ [tLast, d]))).stalled = false ∧
    (tdWalk qhType (some d.tdid) elink0
        (pre ++ tShort :: (mid ++ [tLast, d]))).elink = d.physAddr ∧
    (tdWalk qhType (some d.tdid) elink0
        (pre ++ tShort :: (mid ++ [tLast, d]))).chain =
      (if qhType ≠ kUSBControl ∧
          d.token &&& kUHCI_TD_D = tShort.token &&& kUHCI_TD_D then
        (flipToggles (tShort.token &&& kUHCI_TD_D) [d]).1
      else [d]) := by
  simp only [tdWalk, List.length_append]
  rw [walkPlain qhType (some d.tdid) 0 [] false elink0 pre
    (tShort :: (mid ++ [tLast, d])) [] 0 hpre (by simp)
    (by simp only [List.length_cons, List.length_append,
      List.length_nil]; omega)]
  rw [show (tShort :: (mid ++ [tLast, d])).length
    = (mid ++ [tLast, d]).length + 1 from rfl]
  have hne : mid ++ [tLast, d] ≠ [] := by simp
  obtain ⟨r0, rs, hr⟩ := List.exists_cons_of_ne_nil hne
  rw [hr]
  rw [stepTrigShort qhType (some d.tdid) (r0 :: rs).length tShort r0 rs 0
    ([] ++ pre.map scavAlignBuffer) [] false elink0 (0 + pre.length)
    (fun h => hs6 (Option.some.inj h)) (by omega) hs1 hs2 hs3 hs4 hs5]
  rw [← hr]
  rw [show (mid ++ [tLast, d]).length = mid.length + [tLast, d].length
    from by simp]
  rw [walkBlind qhType (some d.tdid) false true
    (tShort.token &&& kUHCI_TD_D) [] false elink0 (Or.inr rfl) mid
    [tLast, d]
    ([] ++ pre.map scavAlignBuffer ++ [scavAlignBuffer tShort])
    (0 + pre.length + 1)
    (fun t ht => ⟨fun hco => (hmid t ht).2 (Option.some.inj hco),
      (hmid t ht).1⟩)
    (by simp)
    (by simp only [List.length_cons, List.length_nil]; omega)]
  rw [show ([tLast, d] : List TD).length = 1 + 1 from rfl]
  rw [stepHarvestShort qhType (some d.tdid) 1 tLast d []
    (tShort.token &&& kUHCI_TD_D)
    ([] ++ pre.map scavAlignBuffer ++ [scavAlignBuffer tShort] ++
      mid.map scavAlignBuffer) [] false elink0
    (0 + pre.length + 1 + mid.length)
    (fun h => hl2 (Option.some.inj h)) (by omega) hl1]
  by_cases hflip : qhType ≠ kUSBControl ∧
      d.token &&& kUHCI_TD_D = tShort.token &&& kUHCI_TD_D
  · rw [if_pos hflip, if_pos hflip]
    obtain ⟨d2, hd2, hid, -⟩ :=
      flip_single (tShort.token &&& kUHCI_TD_D) d
    rw [hd2]
    rw [show (1 : Nat) = 0 + 1 from rfl]
    rw [stepStop qhType (some d.tdid) 0 d2 [] false false
      (flipToggles (tShort.token &&& kUHCI_TD_D) [d]).2 []
      ([] ++ (([] ++ pre.map scavAlignBuffer ++ [scavAlignBuffer tShort] ++
        mid.map scavAlignBuffer) ++ [scavAlignBuffer tLast])) false
      d.physAddr (0 + pre.length + 1 + mid.length + 1)
      (by rw [hid])]
    exact ⟨by simp, rfl, rfl, by simp⟩
  · rw [if_neg hflip, if_neg hflip]
    rw [show (1 : Nat) = 0 + 1 from rfl]
    rw [stepStop qhType (some d.tdid) 0 d [] false false
      (tShort.token &&& kUHCI_TD_D) []
      ([] ++ (([] ++ pre.map scavAlignBuffer ++ [scavAlignBuffer tShort] ++
        mid.map scavAlignBuffer) ++ [scavAlignBuffer tLast])) false
      d.physAddr (0 + pre.length + 1 + mid.length + 1) rfl]
    exact ⟨by simp, rfl, rfl, by simp⟩
/-- Witness for `scavenger_short_packet` on a three-TD bulk chain. -/
theorem scavenger_short_packet_witness :
    (tdWalk kUSBBulk (some 2) 0
        ([] ++ (⟨0, kUHCI_TD_SPD, 7 <<< 21, 100, false, none, kUSBBulk,
          false, 0, false⟩ : TD) ::
          ([] ++ [⟨1, 0, 0, 102, true, some (some 7), kUSBBulk, false, 0,
            false⟩, ⟨2, 0, 0, 103, false, none, kUSBBulk, false, 0,
            false⟩]))).done =
      (([] ++ (⟨0, kUHCI_TD_SPD, 7 <<< 21, 100, false, none, kUSBBulk,
        false, 0, false⟩ : TD) ::
        ([] ++ [⟨1, 0, 0, 102, true, some (some 7), kUSBBulk, false, 0,
          false⟩]) : List TD)).map scavAlignBuffer ∧
    (tdWalk kUSBBulk (some 2) 0
        ([] ++ (⟨0, kUHCI_TD_SPD, 7 <<< 21, 100, false, none, kUSBBulk,
          false, 0, false⟩ : TD) ::
          ([] ++ [⟨1, 0, 0, 102, true, some (some 7), kUSBBulk, false, 0,
            false⟩, ⟨2, 0, 0, 103, false, none, kUSBBulk, false, 0,
            false⟩]))).stalled = false ∧
    (tdWalk kUSBBulk (some 2) 0
        ([] ++ (⟨0, kUHCI_TD_SPD, 7 <<< 21, 100, false, none, kUSBBulk,
          false, 0, false⟩ : TD) ::
          ([] ++ [⟨1, 0, 0, 102, true, some (some 7), kUSBBulk, false, 0,
            false⟩, ⟨2, 0, 0, 103, false, none, kUSBBulk, false, 0,
            false⟩]))).elink = 103 ∧
    (tdWalk kUSBBulk (some 2) 0
        ([] ++ (⟨0, kUHCI_TD_SPD, 7 <<< 21, 100, false, none, kUSBBulk,
          false, 0, false⟩ : TD) ::
          ([] ++ [⟨1, 0, 0, 102, true, some (some 7), kUSBBulk, false, 0,
            false⟩, ⟨2, 0, 0, 103, false, none, kUSBBulk, false, 0,
            false⟩]))).chain =
      (if kUSBBulk ≠ kUSBControl ∧
          (0 : Nat) &&& kUHCI_TD_D =
            (7 <<< 21 : Nat) &&& kUHCI_TD_D then
        (flipToggles ((7 <<< 21 : Nat) &&& kUHCI_TD_D)
          [⟨2, 0, 0, 103, false, none, kUSBBulk, false, 0, false⟩]).1
      else [⟨2, 0, 0, 103, false, none, kUSBBulk, false, 0, false⟩]) :=
  scavenger_short_packet kUSBBulk 0 [] []
    ⟨0, kUHCI_TD_SPD, 7 <<< 21, 100, false, none, kUSBBulk, false, 0,
      false⟩
    ⟨1, 0, 0, 102, true, some (some 7), kUSBBulk, false, 0, false⟩
    ⟨2, 0, 0, 103, false, none, kUSBBulk, false, 0, false⟩
    (by decide) (by decide) (by decide) (by decide) (by decide) (by decide)
    (by decide) (by decide) (by decide) (by decide) (by decide)

/-- C1 counterexample: on a bulk chain `[TD0 short, TD1 last, TD2 dummy]`
the element link ends at `TD2`'s physical address (the TD after the last
TD), not at `TD1`'s (the TD after the short one) as the claim states; and
although `TD1`'s toggle equals the short TD's ending toggle — the claim's
condition for rewriting it — `TD1` is harvested with its token unchanged,
while the flip lands on `TD2`. -/
theorem scavenger_short_elink_at_last :
    (tdWalk kUSBBulk (some 2) 0
        [⟨0, kUHCI_TD_SPD, 7 <<< 21, 100, false, none, kUSBBulk, false, 0,
          false⟩,
         ⟨1, 0, 0, 102, true, some (some 7), kUSBBulk, false, 0, false⟩,
         ⟨2, 0, 0, 103, false, none, kUSBBulk, false, 0, false⟩]).elink
      = 103 ∧
    (103 : Nat) ≠ 102 ∧
    (⟨1, 0, 0, 102, true, some (some 7), kUSBBulk, false, 0, false⟩ : TD)
      ∈ (tdWalk kUSBBulk (some 2) 0
        [⟨0, kUHCI_TD_SPD, 7 <<< 21, 100, false, none, kUSBBulk, false, 0,
          false⟩,
         ⟨1, 0, 0, 102, true, some (some 7), kUSBBulk, false, 0, false⟩,
         ⟨2, 0, 0, 103, false, none, kUSBBulk, false, 0, false⟩]).done ∧
    (0 : Nat) &&& kUHCI_TD_D = (7 <<< 21 : Nat) &&& kUHCI_TD_D ∧
    (tdWalk kUSBBulk (some 2) 0
        [⟨0, kUHCI_TD_SPD, 7 <<< 21, 100, false, none, kUSBBulk, false, 0,
          false⟩,
         ⟨1, 0, 0, 102, true, some (some 7), kUSBBulk, false, 0, false⟩,
         ⟨2, 0, 0, 103, false, none, kUSBBulk, false, 0, false⟩]).chain
      = [⟨2, 0, kUHCI_TD_D, 103, false, none, kUSBBulk, false, 0,
          false⟩] := by
  decide

/-- Witness for `scavenger_halted` on a three-TD bulk chain whose first TD
is halted. -/
theorem scavenger_halted_witness :
    ((tdWalk kUSBBulk (some 3) 0
        ([] ++ (⟨1, kUHCI_TD_STALLED, 0, 101, false, none, kUSBBulk,
          false, 0, false⟩ : TD) ::
          ([] ++ [⟨2, 0, 0, 102, true, some (some 7), kUSBBulk, false, 0,
            false⟩, ⟨3, 0, 0, 103, false, none, kUSBBulk, false, 0,
            false⟩]))).stalled = true ∧
     (tdWalk kUSBBulk (some 3) 0
        ([] ++ (⟨1, kUHCI_TD_STALLED, 0, 101, false, none, kUSBBulk,
          false, 0, false⟩ : TD) ::
          ([] ++ [⟨2, 0, 0, 102, true, some (some 7), kUSBBulk, false, 0,
            false⟩, ⟨3, 0, 0, 103, false, none, kUSBBulk, false, 0,
            false⟩]))).elink = kUHCI_QH_T ∧
     (tdWalk kUSBBulk (some 3) 0
        ([] ++ (⟨1, kUHCI_TD_STALLED, 0, 101, false, none, kUSBBulk,
          false, 0, false⟩ : TD) ::
          ([] ++ [⟨2, 0, 0, 102, true, some (some 7), kUSBBulk, false, 0,
            false⟩, ⟨3, 0, 0, 103, false, none, kUSBBulk, false, 0,
            false⟩]))).chain =
        [⟨3, 0, 0, 103, false, none, kUSBBulk, false, 0, false⟩]) ∧
    (∀ qh : ScavQH, qh.stalled = true → scavengeOneQH qh = (qh, [])) :=
  scavenger_halted kUSBBulk 0 [] []
    ⟨1, kUHCI_TD_STALLED, 0, 101, false, none, kUSBBulk, false, 0, false⟩
    ⟨2, 0, 0, 102, true, some (some 7), kUSBBulk, false, 0, false⟩
    ⟨3, 0, 0, 103, false, none, kUSBBulk, false, 0, false⟩
    (by decide) (by decide) (by decide) (by decide) (by decide) (by decide)
    (by decide) (by decide) (by decide)

/-- C5 counterexample: a TD with the halted bit set that follows a
detected short packet within the same transaction is ignored — the walk
leaves the stalled flag clear and points the element link past the last TD
instead of at the terminate sentinel — refuting the claim that the
scavenger reacts whenever it encounters a TD with the halted bit set. -/
theorem scavenger_halted_masked_by_short :
    (tdWalk kUSBBulk (some 3) 0
        [⟨0, kUHCI_TD_SPD, 7 <<< 21, 100, false, none, kUSBBulk, false, 0,
          false⟩,
         ⟨1, kUHCI_TD_STALLED, 0, 101, false, none, kUSBBulk, false, 0,
          false⟩,
         ⟨2, 0, 0, 102, true, some (some 7), kUSBBulk, false, 0, false⟩,
         ⟨3, 0, 0, 103, false, none, kUSBBulk, false, 0,
          false⟩]).stalled = false ∧
    (tdWalk kUSBBulk (some 3) 0
        [⟨0, kUHCI_TD_SPD, 7 <<< 21, 100, false, none, kUSBBulk, false, 0,
          false⟩,
         ⟨1, kUHCI_TD_STALLED, 0, 101, false, none, kUSBBulk, false, 0,
          false⟩,
         ⟨2, 0, 0, 102, true, some (some 7), kUSBBulk, false, 0, false⟩,
         ⟨3, 0, 0, 103, false, none, kUSBBulk, false, 0,
          false⟩]).elink = 103 ∧
    (103 : Nat) ≠ kUHCI_QH_T ∧
    (⟨1, kUHCI_TD_STALLED, 0, 101, false, none, kUSBBulk, false, 0,
      false⟩ : TD).ctrlStatus &&& kUHCI_TD_STALLED ≠ 0 ∧
    (⟨1, kUHCI_TD_STALLED, 0, 101, false, none, kUSBBulk, false, 0,
      false⟩ : TD) ∈ (tdWalk kUSBBulk (some 3) 0
        [⟨0, kUHCI_TD_SPD, 7 <<< 21, 100, false, none, kUSBBulk, false, 0,
          false⟩,
         ⟨1, kUHCI_TD_STALLED, 0, 101, false, none, kUSBBulk, false, 0,
          false⟩,
         ⟨2, 0, 0, 102, true, some (some 7), kUSBBulk, false, 0, false⟩,
         ⟨3, 0, 0, 103, false, none, kUSBBulk, false, 0,
          false⟩]).done := by
  decide
/-- C9: running the completed-transaction scavenger twice in succession
with no hardware activity in between produces zero additional dispatcher
deliveries on the second call: the isochronous path does nothing because
the consumer count already equals the snapshotted producer count, the
queue-head path harvests nothing because every queue head's chain was
already advanced past (or parked before) each completed transaction, and an
empty done chain produces no completion events.  The isochronous hypotheses
are the producer/consumer invariant maintained by the filter interrupt; the
queue-head hypothesis is chain well-formedness (`lastTD` terminates the
chain). -/
theorem scavenger_idempotent (f : Nat → Nat) (s : IsochState)
    (qhs : List ScavQH) (cbOut lastQHLink : Nat)
    (h1 : s.consumerCount ≤ s.producerCount)
    (h2 : s.producerCount ≤ s.consumerCount + s.doneQueue.length)
    (hwf : ∀ qh ∈ qhs, WFQH qh) :
    (scavengeIsochTransactions (scavengeIsochTransactions s).1).2 = [] ∧
    (scavengeQHList (scavengeQHList qhs 0).1 0).2 = [] ∧
    (UHCIUIMDoDoneQueueProcessing f [] kIOReturnSuccess none cbOut
      lastQHLink).1 = [] :=
  ⟨isoch_idem s h1 h2, scavengeQHList_idem qhs 0 hwf, rfl⟩

/-- Witness for `scavenger_idempotent` with a one-element isochronous
queue and a single bulk queue head holding one completed transaction. -/
theorem scavenger_idempotent_witness :
    (scavengeIsochTransactions (scavengeIsochTransactions
      ⟨[⟨1, some 0⟩], 2, 1, fun _ => 1, fun _ => 0⟩).1).2 = [] ∧
    (scavengeQHList (scavengeQHList
      [⟨kUSBBulk, false, 0,
        [⟨0, 0, 0, 100, true, some (some 5), kUSBBulk, false, 0, false⟩,
         ⟨99, 0, 0, 200, false, none, kUSBBulk, false, 0, false⟩],
        some 99⟩] 0).1 0).2 = [] ∧
    (UHCIUIMDoDoneQueueProcessing (fun _ => 0) [] kIOReturnSuccess none 1
      0).1 = [] :=
  scavenger_idempotent (fun _ => 0)
    ⟨[⟨1, some 0⟩], 2, 1, fun _ => 1, fun _ => 0⟩
    [⟨kUSBBulk, false, 0,
      [⟨0, 0, 0, 100, true, some (some 5), kUSBBulk, false, 0, false⟩,
       ⟨99, 0, 0, 200, false, none, kUSBBulk, false, 0, false⟩],
      some 99⟩] 1 0 (by decide) (by decide) (by decide)

end UHCI
